import Mathlib

/-!
Shallow embedding of the SQL parser in `sql.go` (package sqlparser):
the tokenizer (`peekWithLength`, `peekQuotedStringWithLength`,
`peekIdentifierWithLength`), the finite-state-machine driver (`doParse`
together with its `parseWhere` sub-loop), the post-scan `validate`
checks, and the entry points `Parse` / `ParseMany`.

Go strings are byte strings indexed by byte; they are modelled here as
`List Char` restricted to the ASCII reading (`strings.ToUpper` becomes
the character-wise ASCII upcasing, which agrees with Go on ASCII input).
The two `for` loops of `doParse` and `parseWhere` are modelled as a
single small-step function `stepOnce` on the parser state; the extra
`mode` field records which of the two loops the program counter is in
(it is the only state component without a counterpart field in the Go
struct).  The loops are driven by a fuel parameter: `run fuel ps`
returns `none` only when the fuel is exhausted, and the fuel passed by
`parse` (`2 * length + 8`) exceeds the number of iterations either Go
loop can make on the given input, every iteration either returning or
consuming input (the two stalling iterations on an unterminated quote
are immediately followed by a returning one).
-/

namespace SqlParser

/-- A Go (byte) string, read as ASCII characters. -/
abbrev Str := List Char

/-- The single-quote character `'` that delimits quoted literals. -/
def squote : Char := Char.ofNat 39

/-- The backslash character that escapes a quote inside a quoted literal. -/
def bslash : Char := Char.ofNat 92

/-- ASCII fragment of `strings.ToUpper`, character-wise. -/
def asciiUpper (c : Char) : Char :=
  if 'a' ≤ c ∧ c ≤ 'z' then Char.ofNat (c.toNat - 32) else c

/-- `strings.ToUpper` on an ASCII string. -/
def toUp (s : Str) : Str := s.map asciiUpper

/-- The ASCII white-space characters trimmed by `strings.TrimSpace`. -/
def isSpaceGo (c : Char) : Bool :=
  c = ' ' ∨ c = '\t' ∨ c = '\n' ∨ c = '\r' ∨ c = Char.ofNat 11 ∨ c = Char.ofNat 12

/-- `strings.TrimSpace` (ASCII fragment). -/
def trimSpace (s : Str) : Str :=
  ((s.dropWhile isSpaceGo).reverse.dropWhile isSpaceGo).reverse

/-- Indexing `s[i]`; out-of-range reads give the NUL character (every Go
access happens under an in-range guard). -/
def getC (s : Str) (i : Nat) : Char := s.getD i (Char.ofNat 0)

/-- The Go slice `s[a:b]`. -/
def slice (s : Str) (a b : Nat) : Str := (s.drop a).take (b - a)

/-- Modelled from the spec: the statement kind of the `query` package
(`query.Query.Type`), enum {Unknown, Select, Insert, Update, Delete};
the package itself is not under src/, its shape is fixed by §3 of the
spec and by every use in `sql.go`. -/
inductive QueryType
  | UnknownType
  | Select
  | Insert
  | Update
  | Delete
deriving DecidableEq, Repr

/-- Modelled from the spec: `query.Operator`, enum
{Unknown, Eq, Ne, Lt, Lte, Gt, Gte}. -/
inductive Operator
  | UnknownOperator
  | Eq
  | Ne
  | Lt
  | Lte
  | Gt
  | Gte
deriving DecidableEq, Repr

/-- Modelled from the spec: the operand tag
{FieldReference, QuotedLiteral, NumericLiteral} (`query.OpField`,
`query.OpQuoted`, `query.OpNumber`); `OpField` is taken as the Go zero
value (first iota constant), as the validator's comparisons against it
mirror the boolean `Operand1IsField` of the sibling variant. -/
inductive OperandType
  | OpField
  | OpQuoted
  | OpNumber
deriving DecidableEq, Repr

/-- Modelled from the spec: one WHERE predicate (`query.Condition`). -/
structure Condition where
  Operand1 : Str
  Operand1Type : OperandType
  Operator : SqlParser.Operator
  Operand2 : Str
  Operand2Type : OperandType
deriving DecidableEq, Repr

/-- The zero `query.Condition` value (all fields at their Go zero). -/
def defaultCondition : Condition :=
  ⟨[], .OpField, .UnknownOperator, [], .OpField⟩

/-- Modelled from the spec: the parse result (`query.Query`).  The Go
`map[string]string` of `Updates` is modelled as an association list with
Go map-assignment semantics (`mapSet` below replaces in place). -/
structure Query where
  Typ : QueryType
  TableName : Str
  Fields : List Str
  Aliases : List Str
  Conditions : List Condition
  Updates : List (Str × Str)
  Inserts : List (List Str)
deriving DecidableEq, Repr

/-- The zero `query.Query` value. -/
def emptyQuery : Query := ⟨.UnknownType, [], [], [], [], [], []⟩

/-- Go map assignment `m[k] = v`: replace the binding of `k` if present,
append it otherwise. -/
def mapSet : List (Str × Str) → Str → Str → List (Str × Str)
  | [], k, v => [(k, v)]
  | (k', v') :: t, k, v =>
    if k' = k then (k, v) :: t else (k', v') :: mapSet t k v

/-- Go map read `m[k]`. -/
def mapGet (m : List (Str × Str)) (k : Str) : Option Str :=
  (m.find? (fun kv => kv.1 = k)).map (fun kv => kv.2)

/-- The `rWord` enumeration of reserved tokens in `sql.go`. -/
inductive RWord
  | rUnknown
  | rLeftBracket
  | rRightBracket
  | rGT
  | rGTE
  | rLTE
  | rLT
  | rEQ
  | rNE
  | rCOMMA
  | rSEMI
  | rEX
  | rAS
  | rSELECT
  | rINSERT
  | rINTO
  | rVALUES
  | rUPDATE
  | rDELETE
  | rWHERE
  | rFROM
  | rSET
deriving DecidableEq, Repr

/-- Membership in the `reservedSymbols` map of `sql.go`. -/
def reservedSymbol (c : Char) : Bool :=
  c = '(' ∨ c = ')' ∨ c = '>' ∨ c = '<' ∨ c = '=' ∨ c = '!' ∨ c = ',' ∨ c = ';'

/-- The `reservedWords` map of `sql.go` as an association list. -/
def reservedWordsList : List (Str × RWord) :=
  [("(".data, .rLeftBracket), (")".data, .rRightBracket),
   (">".data, .rGT), (">=".data, .rGTE), ("<".data, .rLT), ("<=".data, .rLTE),
   ("=".data, .rEQ), ("!=".data, .rNE), (",".data, .rCOMMA), (";".data, .rSEMI),
   ("AS".data, .rAS), ("SELECT".data, .rSELECT), ("INSERT".data, .rINSERT),
   ("INTO".data, .rINTO), ("VALUES".data, .rVALUES), ("UPDATE".data, .rUPDATE),
   ("DELETE".data, .rDELETE), ("FROM".data, .rFROM), ("WHERE".data, .rWHERE),
   ("SET".data, .rSET)]

/-- `reservedWords[s]` as an optional lookup (`ok` part of the Go read). -/
def lookupRWord (s : Str) : Option RWord :=
  (reservedWordsList.find? (fun kv => kv.1 = s)).map (fun kv => kv.2)

/-- `reservedWords[s]` with the Go zero value `rUnknown` when absent. -/
def rWordOf (s : Str) : RWord := (lookupRWord s).getD .rUnknown

/-- The character class scanned over by `peekIdentifierWithLength`. -/
def isIdentSymbol (c : Char) : Bool :=
  ('a' ≤ c ∧ c ≤ 'z') ∨ ('A' ≤ c ∧ c ≤ 'Z') ∨ ('0' ≤ c ∧ c ≤ '9') ∨
    c = '*' ∨ c = '_' ∨ c = '-' ∨ c = '.'

/-- The tail loop of `isIdentifier`: letters, digits and underscore,
or a `(`-to-trailing-`)` function suffix. `last` is `s[len(s)-1]`. -/
def identTail (last : Char) : Str → Bool × Bool
  | [] => (true, false)
  | c :: t =>
    if ('a' ≤ c ∧ c ≤ 'z') ∨ ('A' ≤ c ∧ c ≤ 'Z') ∨ ('0' ≤ c ∧ c ≤ '9') ∨ c = '_' then
      identTail last t
    else if c = '(' ∧ last = ')' then (true, false)
    else (false, false)

/-- `isIdentifier` of `sql.go`: `(isIdentifier, isNumber)`. -/
def isIdentifier (s : Str) : Bool × Bool :=
  match s with
  | [] => (false, false)
  | c :: rest =>
    if (lookupRWord (toUp (c :: rest))).isSome then (false, false)
    else if c = '-' ∨ ('0' ≤ c ∧ c ≤ '9') then
      if rest.all (fun x => (('0' ≤ x ∧ x ≤ '9') ∨ x = '.' : Bool)) then (false, true)
      else (false, false)
    else if ('a' ≤ c ∧ c ≤ 'z') ∨ ('A' ≤ c ∧ c ≤ 'Z') ∨ c = '_' then
      identTail ((c :: rest).getLastD (Char.ofNat 0)) rest
    else (false, false)

/-- `isIdentifierOrAsterisk` of `sql.go`. -/
def isIdentifierOrAsterisk (s : Str) : Bool × Bool :=
  if s = "*".data then (true, false) else isIdentifier s

/-- The `step` enumeration of `sql.go`. -/
inductive Step
  | stepType
  | stepSelectField
  | stepSelectFrom
  | stepSelectComma
  | stepSelectFromTable
  | stepInsertTable
  | stepInsertFieldsOpeningParens
  | stepInsertFields
  | stepInsertFieldsCommaOrClosingParens
  | stepInsertValuesOpeningParens
  | stepInsertValuesRWord
  | stepInsertValues
  | stepInsertValuesCommaOrClosingParens
  | stepInsertValuesCommaBeforeOpeningParens
  | stepUpdateTable
  | stepUpdateSet
  | stepUpdateField
  | stepUpdateEquals
  | stepUpdateValue
  | stepUpdateComma
  | stepDeleteFromTable
  | stepWhere
  | stepWhereField
  | stepWhereOperator
  | stepWhereValue
  | stepWhereAnd
deriving DecidableEq, Repr

/-- Which of the two scan loops the program counter is in: `outer` is
`doParse`'s loop, `inWhere` is the loop of `parseWhere` (entered from
the `stepWhere` case and left on its `return` statements or, in the dead
`default` branch, by falling back to `doParse`). -/
inductive Mode
  | outer
  | inWhere
deriving DecidableEq, Repr

/-- `ErrorWithPos` of `sql.go`: every failure value carries a message and
the byte offset current when it was detected. -/
structure ErrorWithPos where
  msg : Str
  pos : Nat
deriving DecidableEq, Repr

/-- The mutable `parser` struct of `sql.go` (plus the control-location
field `mode`, see `Mode`). -/
structure Parser where
  i : Nat
  len : Nat
  peeked : Str
  peekQuoted : Bool
  sql : Str
  sqlUpper : Str
  step : Step
  query : Query
  nextUpdateField : Str
  mode : Mode
deriving DecidableEq, Repr

/-- `peekQuotedStringWithLength`: starting at offset `i`, scan from
`i + 1` for a quote not preceded by a backslash; found at `j`, the token
is `sql[i+1:j]` and the consumed length counts both quotes; otherwise
the empty token of length 0.  Sets the `peekQuoted` flag.  (The zipped
pairs are `(sql[j-1], sql[j])` for `j = i+1, i+2, …`.) -/
def peekQuotedStringWithLength (upper : Bool) (ps : Parser) : Parser × (Str × Nat) :=
  let ps' := {ps with peekQuoted := true}
  let pairs := (ps.sql.drop ps.i).zip (ps.sql.drop (ps.i + 1))
  match pairs.findIdx? (fun pr => pr.2 = squote ∧ pr.1 ≠ bslash) with
  | some k =>
    (ps', (slice (if upper then ps.sqlUpper else ps.sql) (ps.i + 1) (ps.i + 1 + k), k + 2))
  | none => (ps', ([], 0))

/-- `peekIdentifierWithLength`: a run of reserved symbols (single `(` or
`)`, or a maximal run of symbol characters stopped by a parenthesis),
else a run of identifier characters, a `(`…`)` span being absorbed to
support function-call tokens.  The symbol branch returns original-case
text regardless of `upper`, as the source does. -/
def peekIdentifierWithLength (upper : Bool) (ps : Parser) : Str × Nat :=
  let i := ps.i
  if reservedSymbol (getC ps.sqlUpper i) then
    if getC ps.sql i = '(' ∨ getC ps.sql i = ')' then (slice ps.sql i (i + 1), 1)
    else
      let pairs := (ps.sqlUpper.drop (i + 1)).zip (ps.sql.drop (i + 1))
      let j :=
        match pairs.findIdx? (fun pr =>
            (¬ reservedSymbol pr.1 ∨ pr.2 = '(' ∨ pr.2 = ')' : Bool)) with
        | some k => i + 1 + k
        | none => ps.sql.length
      (slice ps.sql i j, j - i)
  else
    match (ps.sql.drop i).findIdx? (fun c => !(isIdentSymbol c)) with
    | some k =>
      let j := i + k
      let j' :=
        if getC ps.sql j = '(' then
          match (ps.sql.drop (j + 1)).findIdx? (fun c => c = ')') with
          | some e => j + e + 2
          | none => j
        else j
      (slice (if upper then ps.sqlUpper else ps.sql) i j', j' - i)
    | none =>
      (slice (if upper then ps.sqlUpper else ps.sql) i ps.sql.length, ps.sql.length - i)

/-- `peekWithLength` of `sql.go`: empty past the end, a quoted string at
a quote, an identifier/symbol token otherwise. -/
def peekWithLength (upper : Bool) (ps : Parser) : Parser × (Str × Nat) :=
  if ps.i ≥ ps.sql.length then (ps, ([], 0))
  else if getC ps.sql ps.i = squote then peekQuotedStringWithLength upper ps
  else (ps, peekIdentifierWithLength upper ps)

/-- `peek`: peek the next token, recording it and its length in the
parser state. -/
def peek (upper : Bool) (ps : Parser) : Parser × Str :=
  let r := peekWithLength upper ps
  ({r.1 with peeked := r.2.1, len := r.2.2}, r.2.1)

/-- `peekQuotedString`: like `peek` but forcing the quoted-string
reader. -/
def peekQuotedString (upper : Bool) (ps : Parser) : Parser × Str :=
  let r := peekQuotedStringWithLength upper ps
  ({r.1 with peeked := r.2.1, len := r.2.2}, r.2.1)

/-- `popWhitespace`: advance past a run of spaces. -/
def popWhitespace (ps : Parser) : Parser :=
  {ps with i := ps.i + ((ps.sql.drop ps.i).takeWhile (fun c => c = ' ')).length}

/-- `pop`: consume the last-peeked token and trailing spaces. -/
def pop (ps : Parser) : Parser :=
  popWhitespace {ps with i := ps.i + ps.len, len := 0, peeked := [], peekQuoted := false}

/-- The outcome of one iteration of a scan loop: continue at a new
state, or return from `doParse` with the final state and an optional
error. -/
inductive StepRes
  | cont (ps : Parser)
  | halt (ps : Parser) (e : Option ErrorWithPos)
deriving DecidableEq, Repr

/-- The `stepType` case of `doParse`. -/
def doStepType (ps : Parser) : StepRes :=
  let r := peek true ps
  let ps1 := r.1
  let s := r.2
  if s = "SELECT".data then
    .cont (pop {ps1 with query := {ps1.query with Typ := .Select}, step := .stepSelectField})
  else if s = "INSERT".data then
    let ps2 := pop ps1
    let r2 := peek true ps2
    let ps3 := r2.1
    let s2 := r2.2
    if s2 = "INTO".data then
      .cont (pop {ps3 with query := {ps3.query with Typ := .Insert}, step := .stepInsertTable})
    else .halt ps3 (some ⟨"at INSERT: expected INTO, got ".data ++ s2, ps3.i⟩)
  else if s = "UPDATE".data then
    .cont (pop {ps1 with
      query := {ps1.query with Typ := .Update, Updates := []}, step := .stepUpdateTable})
  else if s = "DELETE".data then
    let ps2 := pop ps1
    let r2 := peek true ps2
    let ps3 := r2.1
    let s2 := r2.2
    if s2 = "FROM".data then
      .cont (pop {ps3 with query := {ps3.query with Typ := .Delete}, step := .stepDeleteFromTable})
    else .halt ps3 (some ⟨"at DELETE: expected FROM, got ".data ++ s2, ps3.i⟩)
  else .halt ps1 (some ⟨"invalid query type".data, ps1.i⟩)

/-- The `stepSelectField` case: a field, an optional `AS alias`, then
`FROM` or a comma. -/
def doSelectField (ps : Parser) : StepRes :=
  let r := peek false ps
  let ps1 := r.1
  let ident := r.2
  if !(isIdentifierOrAsterisk ident).1 then
    .halt ps1 (some ⟨"at SELECT: expected field to SELECT".data, ps1.i⟩)
  else
    let ps2 := pop {ps1 with query := {ps1.query with Fields := ps1.query.Fields ++ [ident]}}
    let r2 := peek true ps2
    let ps3 := r2.1
    let maybeFrom := r2.2
    if maybeFrom = "AS".data then
      let ps4 := pop ps3
      let r3 := peek false ps4
      let ps5 := r3.1
      let aliasTok := r3.2
      if !(isIdentifierOrAsterisk aliasTok).1 then
        .halt ps5 (some ⟨("at AS: expected alias for ".data ++ ident), ps5.i⟩)
      else
        let ps6 := pop {ps5 with query := {ps5.query with Aliases := ps5.query.Aliases ++ [aliasTok]}}
        let r4 := peek true ps6
        let ps7 := r4.1
        let maybeFrom2 := r4.2
        if maybeFrom2 = "FROM".data then .cont {ps7 with step := .stepSelectFrom}
        else .cont {ps7 with step := .stepSelectComma}
    else
      let ps3' := {ps3 with query := {ps3.query with Aliases := ps3.query.Aliases ++ [[]]}}
      if maybeFrom = "FROM".data then .cont {ps3' with step := .stepSelectFrom}
      else .cont {ps3' with step := .stepSelectComma}

/-- The `stepSelectComma` case. -/
def doSelectComma (ps : Parser) : StepRes :=
  let r := peek false ps
  if r.2 = ",".data then .cont {pop r.1 with step := .stepSelectField}
  else .halt r.1 (some ⟨"at SELECT: expected comma or FROM".data, r.1.i⟩)

/-- The `stepSelectFrom` case. -/
def doSelectFrom (ps : Parser) : StepRes :=
  let r := peek true ps
  if r.2 = "FROM".data then .cont {pop r.1 with step := .stepSelectFromTable}
  else .halt r.1 (some ⟨"at SELECT: expected FROM".data, r.1.i⟩)

/-- A table-name case (`stepSelectFromTable`, `stepInsertTable`,
`stepDeleteFromTable`, `stepUpdateTable` share this shape): a non-empty
token is recorded as `TableName`. -/
def doTableName (next : Step) (emsg : Str) (ps : Parser) : StepRes :=
  let r := peek false ps
  let ps1 := r.1
  let tableName := r.2
  if tableName.length = 0 then .halt ps1 (some ⟨emsg, ps1.i⟩)
  else .cont {pop {ps1 with query := {ps1.query with TableName := tableName}} with step := next}

/-- The `stepUpdateSet` case. -/
def doUpdateSet (ps : Parser) : StepRes :=
  let r := peek true ps
  if r.2 = "SET".data then .cont {pop r.1 with step := .stepUpdateField}
  else .halt r.1 (some ⟨"at UPDATE: expected 'SET'".data, r.1.i⟩)

/-- The `stepUpdateField` case. -/
def doUpdateField (ps : Parser) : StepRes :=
  let r := peek false ps
  let ps1 := r.1
  let ident := r.2
  if !(isIdentifier ident).1 then
    .halt ps1 (some ⟨"at UPDATE: expected at least one field to update".data, ps1.i⟩)
  else .cont {pop {ps1 with nextUpdateField := ident} with step := .stepUpdateEquals}

/-- The `stepUpdateEquals` case. -/
def doUpdateEquals (ps : Parser) : StepRes :=
  let r := peek false ps
  if r.2 = "=".data then .cont {pop r.1 with step := .stepUpdateValue}
  else .halt r.1 (some ⟨"at UPDATE: expected '='".data, r.1.i⟩)

/-- The `stepUpdateValue` case: a quoted value is inserted into the
`Updates` map under the pending field, then `WHERE` or a comma. -/
def doUpdateValue (ps : Parser) : StepRes :=
  let r := peekQuotedString false ps
  let ps1 := r.1
  let quotedValue := r.2
  if ps1.len = 0 then .halt ps1 (some ⟨"at UPDATE: expected quoted value".data, ps1.i⟩)
  else
    let ps2 := pop {ps1 with
      query := {ps1.query with Updates := mapSet ps1.query.Updates ps1.nextUpdateField quotedValue},
      nextUpdateField := []}
    let r2 := peek true ps2
    let ps3 := r2.1
    if r2.2 = "WHERE".data then .cont {ps3 with step := .stepWhere}
    else .cont {ps3 with step := .stepUpdateComma}

/-- The `stepUpdateComma` case. -/
def doUpdateComma (ps : Parser) : StepRes :=
  let r := peek false ps
  if r.2 = ",".data then .cont {pop r.1 with step := .stepUpdateField}
  else .halt r.1 (some ⟨"at UPDATE: expected ','".data, r.1.i⟩)

/-- The `stepWhere` case: consume `WHERE` and enter the `parseWhere`
loop at `stepWhereField`. -/
def doWhere (ps : Parser) : StepRes :=
  let r := peek true ps
  if r.2 = "WHERE".data then .cont {pop r.1 with step := .stepWhereField, mode := .inWhere}
  else .halt r.1 (some ⟨"expected WHERE".data, r.1.i⟩)

/-- The `stepInsertFieldsOpeningParens` case. -/
def doInsertFieldsOpeningParens (ps : Parser) : StepRes :=
  let r := peek false ps
  if r.2.length ≠ 1 ∨ r.2 ≠ "(".data then
    .halt r.1 (some ⟨"at INSERT INTO: expected opening parens".data, r.1.i⟩)
  else .cont {pop r.1 with step := .stepInsertFields}

/-- The `stepInsertFields` case. -/
def doInsertFields (ps : Parser) : StepRes :=
  let r := peek false ps
  let ps1 := r.1
  let ident := r.2
  if !(isIdentifier ident).1 then
    .halt ps1 (some ⟨"at INSERT INTO: expected at least one field to insert".data, ps1.i⟩)
  else
    .cont {pop {ps1 with query := {ps1.query with Fields := ps1.query.Fields ++ [ident]}} with
      step := .stepInsertFieldsCommaOrClosingParens}

/-- The `stepInsertFieldsCommaOrClosingParens` case. -/
def doInsertFieldsCommaOrClosingParens (ps : Parser) : StepRes :=
  let r := peek false ps
  let t := r.2
  if t ≠ ",".data ∧ t ≠ ")".data then
    .halt r.1 (some ⟨"at INSERT INTO: expected comma or closing parens".data, r.1.i⟩)
  else if t = ",".data then .cont {pop r.1 with step := .stepInsertFields}
  else .cont {pop r.1 with step := .stepInsertValuesRWord}

/-- The `stepInsertValuesRWord` case. -/
def doInsertValuesRWord (ps : Parser) : StepRes :=
  let r := peek true ps
  if r.2 = "VALUES".data then .cont {pop r.1 with step := .stepInsertValuesOpeningParens}
  else .halt r.1 (some ⟨"at INSERT INTO: expected 'VALUES'".data, r.1.i⟩)

/-- The `stepInsertValuesOpeningParens` case: open a new empty row. -/
def doInsertValuesOpeningParens (ps : Parser) : StepRes :=
  let r := peek false ps
  let ps1 := r.1
  if r.2 = "(".data then
    .cont {pop {ps1 with query := {ps1.query with Inserts := ps1.query.Inserts ++ [[]]}} with
      step := .stepInsertValues}
  else .halt ps1 (some ⟨"at INSERT INTO: expected opening parens".data, ps1.i⟩)

/-- The `stepInsertValues` case: append a quoted value to the last
(current) row.  The Go code indexes `Inserts[len(Inserts)-1]`
unconditionally; the current row is always present (a row is opened
before this state is entered), `getLastD` gives the access a total
reading. -/
def doInsertValues (ps : Parser) : StepRes :=
  let r := peekQuotedString false ps
  let ps1 := r.1
  let quotedValue := r.2
  if ps1.len = 0 then .halt ps1 (some ⟨"at INSERT INTO: expected quoted value".data, ps1.i⟩)
  else
    let row := ps1.query.Inserts.getLastD []
    .cont {pop {ps1 with
        query := {ps1.query with Inserts := ps1.query.Inserts.dropLast ++ [row ++ [quotedValue]]}}
      with step := .stepInsertValuesCommaOrClosingParens}

/-- The `stepInsertValuesCommaOrClosingParens` case: a comma continues
the row; a closing parenthesis ends it, at which point a row shorter
than the field list fails at once. -/
def doInsertValuesCommaOrClosingParens (ps : Parser) : StepRes :=
  let r := peek false ps
  let t := r.2
  if t ≠ ",".data ∧ t ≠ ")".data then
    .halt r.1 (some ⟨"at INSERT INTO: expected comma or closing parens".data, r.1.i⟩)
  else
    let ps2 := pop r.1
    if t = ",".data then .cont {ps2 with step := .stepInsertValues}
    else
      let currentInsertRow := ps2.query.Inserts.getLastD []
      if currentInsertRow.length < ps2.query.Fields.length then
        .halt ps2 (some ⟨"at INSERT INTO: value count doesn't match field count".data, ps2.i⟩)
      else .cont {ps2 with step := .stepInsertValuesCommaBeforeOpeningParens}

/-- The `stepInsertValuesCommaBeforeOpeningParens` case. -/
def doInsertValuesCommaBeforeOpeningParens (ps : Parser) : StepRes :=
  let r := peek false ps
  if r.2 = ",".data then .cont {pop r.1 with step := .stepInsertValuesOpeningParens}
  else .halt r.1 (some ⟨"at INSERT INTO: expected comma".data, r.1.i⟩)

/-- The `stepWhereField` case of `parseWhere`: a quoted operand or an
identifier opens a new condition; a non-identifier ends the clause
(successfully if at least one condition exists). -/
def doWhereField (ps : Parser) : StepRes :=
  let r := peek false ps
  let ps1 := r.1
  let ident := r.2
  if ps1.peekQuoted then
    .cont {pop {ps1 with query := {ps1.query with
        Conditions := ps1.query.Conditions ++ [⟨ident, .OpQuoted, .UnknownOperator, [], .OpField⟩]}}
      with step := .stepWhereOperator}
  else if ident.length = 0 then
    .halt ps1 (some ⟨"at WHERE: empty WHERE clause".data, ps1.i⟩)
  else if !(isIdentifier ident).1 then
    if ps1.query.Conditions = [] then .halt ps1 (some ⟨"at WHERE: expected field".data, ps1.i⟩)
    else .halt ps1 none
  else
    .cont {pop {ps1 with query := {ps1.query with
        Conditions := ps1.query.Conditions ++ [⟨ident, .OpField, .UnknownOperator, [], .OpField⟩]}}
      with step := .stepWhereOperator}

/-- The `stepWhereOperator` case: the token, looked up among the
reserved words, fixes the operator of the current (last) condition.
The Go code indexes `Conditions[len(Conditions)-1]` unconditionally;
`getLastD` gives that access a total reading (the state invariant below
shows the list is never empty here). -/
def doWhereOperator (ps : Parser) : StepRes :=
  let r := peek false ps
  let ps1 := r.1
  let currentCondition := ps1.query.Conditions.getLastD defaultCondition
  let setOp (op : Operator) : StepRes :=
    .cont {pop {ps1 with query := {ps1.query with
        Conditions := ps1.query.Conditions.dropLast ++ [{currentCondition with Operator := op}]}}
      with step := .stepWhereValue}
  match rWordOf r.2 with
  | .rEQ => setOp .Eq
  | .rGT => setOp .Gt
  | .rGTE => setOp .Gte
  | .rLT => setOp .Lt
  | .rLTE => setOp .Lte
  | .rNE => setOp .Ne
  | _ => .halt ps1 (some ⟨"at WHERE: unknown operator".data, ps1.i⟩)

/-- The `stepWhereValue` case: a quoted literal, an identifier (a field
reference) or a numeric literal becomes the right operand of the
current condition. -/
def doWhereValue (ps : Parser) : StepRes :=
  let currentCondition := ps.query.Conditions.getLastD defaultCondition
  let r := peek false ps
  let ps1 := r.1
  let ident := r.2
  let finish (cc : Condition) : StepRes :=
    .cont {pop {ps1 with query := {ps1.query with
        Conditions := ps1.query.Conditions.dropLast ++ [cc]}} with step := .stepWhereAnd}
  if ps1.peekQuoted then
    finish {currentCondition with Operand2 := ident, Operand2Type := .OpQuoted}
  else if (isIdentifier ident).1 then
    finish {currentCondition with Operand2 := ident, Operand2Type := .OpField}
  else if (isIdentifier ident).2 then
    finish {currentCondition with Operand2 := ident, Operand2Type := .OpNumber}
  else .halt ps1 (some ⟨"at WHERE: expected quoted value".data, ps1.i⟩)

/-- The `stepWhereAnd` case. -/
def doWhereAnd (ps : Parser) : StepRes :=
  let r := peek true ps
  if r.2 = "AND".data then .cont {pop r.1 with step := .stepWhereField}
  else .halt r.1 (some ⟨"expected AND".data, r.1.i⟩)

/-- One iteration of the scan: `doParse`'s loop when `mode` is `outer`
(its `switch` has no case for the four WHERE steps, so reaching them
there would spin forever — modelled by an unchanged `cont`), and
`parseWhere`'s loop when `mode` is `inWhere` (whose end-of-input check
reports an empty clause, and whose `default` branch falls back to
`doParse`). -/
def stepOnce (ps : Parser) : StepRes :=
  match ps.mode with
  | .outer =>
    if ps.i ≥ ps.sql.length then .halt ps none
    else
      match ps.step with
      | .stepType => doStepType ps
      | .stepSelectField => doSelectField ps
      | .stepSelectComma => doSelectComma ps
      | .stepSelectFrom => doSelectFrom ps
      | .stepSelectFromTable =>
        doTableName .stepWhere "at SELECT: expected quoted table name".data ps
      | .stepInsertTable =>
        doTableName .stepInsertFieldsOpeningParens
          "at INSERT INTO: expected quoted table name".data ps
      | .stepDeleteFromTable =>
        doTableName .stepWhere "at DELETE FROM: expected quoted table name".data ps
      | .stepUpdateTable =>
        doTableName .stepUpdateSet "at UPDATE: expected quoted table name".data ps
      | .stepUpdateSet => doUpdateSet ps
      | .stepUpdateField => doUpdateField ps
      | .stepUpdateEquals => doUpdateEquals ps
      | .stepUpdateValue => doUpdateValue ps
      | .stepUpdateComma => doUpdateComma ps
      | .stepWhere => doWhere ps
      | .stepInsertFieldsOpeningParens => doInsertFieldsOpeningParens ps
      | .stepInsertFields => doInsertFields ps
      | .stepInsertFieldsCommaOrClosingParens => doInsertFieldsCommaOrClosingParens ps
      | .stepInsertValuesRWord => doInsertValuesRWord ps
      | .stepInsertValuesOpeningParens => doInsertValuesOpeningParens ps
      | .stepInsertValues => doInsertValues ps
      | .stepInsertValuesCommaOrClosingParens => doInsertValuesCommaOrClosingParens ps
      | .stepInsertValuesCommaBeforeOpeningParens => doInsertValuesCommaBeforeOpeningParens ps
      | .stepWhereField => .cont ps
      | .stepWhereOperator => .cont ps
      | .stepWhereValue => .cont ps
      | .stepWhereAnd => .cont ps
  | .inWhere =>
    if ps.i ≥ ps.sql.length then
      if ps.query.Conditions = [] then
        .halt ps (some ⟨"at WHERE: empty WHERE clause".data, ps.i⟩)
      else .halt ps none
    else
      match ps.step with
      | .stepWhereField => doWhereField ps
      | .stepWhereOperator => doWhereOperator ps
      | .stepWhereValue => doWhereValue ps
      | .stepWhereAnd => doWhereAnd ps
      | _ => .cont {ps with mode := .outer}

/-- Iterate `stepOnce` under a fuel bound; `none` is fuel exhaustion. -/
def run : Nat → Parser → Option (Parser × Option ErrorWithPos)
  | 0, _ => none
  | fuel + 1, ps =>
    match stepOnce ps with
    | .halt ps' e => some (ps', e)
    | .cont ps' => run fuel ps'

/-- The first failing check of the `validate` loop over one condition. -/
def conditionErr (i : Nat) (c : Condition) : Option ErrorWithPos :=
  if c.Operator = .UnknownOperator then
    some ⟨"at WHERE: condition without operator".data, i⟩
  else if c.Operand1 = [] ∧ c.Operand1Type = .OpField then
    some ⟨"at WHERE: condition with empty left side operand".data, i⟩
  else if c.Operand2 = [] ∧ c.Operand2Type = .OpField then
    some ⟨"at WHERE: condition with empty right side operand".data, i⟩
  else none

/-- `validate` of `sql.go`: the post-scan checks, in source order, every
failure carrying the final scan position `p.i`. -/
def validate (ps : Parser) : Option ErrorWithPos :=
  if ps.query.Conditions = [] ∧ ps.step = .stepWhereField then
    some ⟨"at WHERE: empty WHERE clause".data, ps.i⟩
  else if ps.query.Typ = .UnknownType then
    some ⟨"query type cannot be empty".data, ps.i⟩
  else if (ps.query.Typ ≠ .Select ∨ ps.query.Fields = []) ∧ ps.query.TableName = [] then
    some ⟨"table name cannot be empty".data, ps.i⟩
  else if ps.query.Conditions = [] ∧ (ps.query.Typ = .Update ∨ ps.query.Typ = .Delete) then
    some ⟨"at WHERE: WHERE clause is mandatory for UPDATE & DELETE".data, ps.i⟩
  else
    match ps.query.Conditions.findSome? (conditionErr ps.i) with
    | some e => some e
    | none =>
      if ps.query.Typ = .Insert ∧ ps.query.Inserts = [] then
        some ⟨"at INSERT INTO: need at least one row to insert".data, ps.i⟩
      else if ps.query.Typ = .Insert ∧
          ps.query.Inserts.any (fun r => r.length ≠ ps.query.Fields.length) then
        some ⟨"at INSERT INTO: value count doesn't match field count".data, ps.i⟩
      else if ps.query.Typ = .Select ∧ ps.query.Fields.length ≠ ps.query.Aliases.length then
        some ⟨"fileds and aliases count mismatch".data, ps.i⟩
      else none

/-- The parser state `Parse` starts from on the trimmed input. -/
def initialParser (t : Str) : Parser :=
  ⟨0, 0, [], false, t, toUp t, .stepType, emptyQuery, [], .outer⟩

/-- Fuel that bounds the number of loop iterations on input `t`: every
iteration either returns or consumes at least one byte, except the two
unterminated-quote stalls, each followed directly by a returning
iteration. -/
def fuelOf (t : Str) : Nat := 2 * t.length + 8

/-- The scan part of `Parse`: `doParse` run on the trimmed input. -/
def scanRun (s : Str) : Option (Parser × Option ErrorWithPos) :=
  run (fuelOf (trimSpace s)) (initialParser (trimSpace s))

/-- `Parse` of `sql.go`: trim, scan, then validate.  The fuel-exhaustion
branch is unreachable (see `fuelOf`) and returns a marker error. -/
def parse (s : Str) : Query × Option ErrorWithPos :=
  match scanRun s with
  | none => (emptyQuery, some ⟨"scan did not terminate".data, 0⟩)
  | some (ps, some e) => (ps.query, some e)
  | some (ps, none) => (ps.query, validate ps)

/-- `ParseMany` of `sql.go`: parse each statement in order, stopping at
the first failure and returning the successfully parsed prefix with the
error. -/
def parseMany : List Str → List Query × Option ErrorWithPos
  | [] => ([], none)
  | s :: rest =>
    match parse s with
    | (_, some e) => ([], some e)
    | (q, none) =>
      let r := parseMany rest
      (q :: r.1, r.2)

/-! State-projection lemmas: peeking and popping never change the
control step, the mode or the built query. -/

theorem peekQuotedStringWithLength_fst (u : Bool) (ps : Parser) :
    (peekQuotedStringWithLength u ps).1 = {ps with peekQuoted := true} := by
  unfold peekQuotedStringWithLength
  dsimp only
  split <;> rfl

theorem peekWithLength_fst (u : Bool) (ps : Parser) :
    (peekWithLength u ps).1 = ps ∨ (peekWithLength u ps).1 = {ps with peekQuoted := true} := by
  unfold peekWithLength
  split_ifs
  · exact Or.inl rfl
  · exact Or.inr (peekQuotedStringWithLength_fst u ps)
  · exact Or.inl rfl

@[simp] theorem peek_fst_step (u : Bool) (ps : Parser) : (peek u ps).1.step = ps.step := by
  rcases peekWithLength_fst u ps with h | h <;> simp [peek, h]

@[simp] theorem peek_fst_query (u : Bool) (ps : Parser) : (peek u ps).1.query = ps.query := by
  rcases peekWithLength_fst u ps with h | h <;> simp [peek, h]

@[simp] theorem peek_fst_mode (u : Bool) (ps : Parser) : (peek u ps).1.mode = ps.mode := by
  rcases peekWithLength_fst u ps with h | h <;> simp [peek, h]

@[simp] theorem peek_fst_sql (u : Bool) (ps : Parser) : (peek u ps).1.sql = ps.sql := by
  rcases peekWithLength_fst u ps with h | h <;> simp [peek, h]

@[simp] theorem peek_fst_i (u : Bool) (ps : Parser) : (peek u ps).1.i = ps.i := by
  rcases peekWithLength_fst u ps with h | h <;> simp [peek, h]

@[simp] theorem peekQuotedString_fst_step (u : Bool) (ps : Parser) :
    (peekQuotedString u ps).1.step = ps.step := by
  simp [peekQuotedString, peekQuotedStringWithLength_fst u ps]

@[simp] theorem peekQuotedString_fst_query (u : Bool) (ps : Parser) :
    (peekQuotedString u ps).1.query = ps.query := by
  simp [peekQuotedString, peekQuotedStringWithLength_fst u ps]

@[simp] theorem peekQuotedString_fst_mode (u : Bool) (ps : Parser) :
    (peekQuotedString u ps).1.mode = ps.mode := by
  simp [peekQuotedString, peekQuotedStringWithLength_fst u ps]

@[simp] theorem peekQuotedString_fst_nextUpdateField (u : Bool) (ps : Parser) :
    (peekQuotedString u ps).1.nextUpdateField = ps.nextUpdateField := by
  simp [peekQuotedString, peekQuotedStringWithLength_fst u ps]

@[simp] theorem pop_step (ps : Parser) : (pop ps).step = ps.step := rfl

@[simp] theorem pop_query (ps : Parser) : (pop ps).query = ps.query := rfl

@[simp] theorem pop_mode (ps : Parser) : (pop ps).mode = ps.mode := rfl

/-! The state invariant maintained by both scan loops. -/

/-- The four states of the `parseWhere` loop. -/
def isWhereStep : Step → Bool
  | .stepWhereField | .stepWhereOperator | .stepWhereValue | .stepWhereAnd => true
  | _ => false

/-- The WHERE states whose handlers index `Conditions[len-1]` or follow
such a state. -/
def isCondStep : Step → Bool
  | .stepWhereOperator | .stepWhereValue | .stepWhereAnd => true
  | _ => false

/-- The states of the INSERT clause of the grammar. -/
def isInsertStep : Step → Bool
  | .stepInsertTable | .stepInsertFieldsOpeningParens | .stepInsertFields
  | .stepInsertFieldsCommaOrClosingParens | .stepInsertValuesRWord
  | .stepInsertValuesOpeningParens | .stepInsertValues
  | .stepInsertValuesCommaOrClosingParens
  | .stepInsertValuesCommaBeforeOpeningParens => true
  | _ => false

/-- The invariant every state reached by the scan satisfies: `doParse`'s
loop is never in a WHERE state and `parseWhere`'s loop always is; the
states that access the last recorded condition have one; the query type
is still unknown exactly in the initial state (with no conditions yet);
and an INSERT parse stays in the INSERT clause and records no
conditions. -/
structure Inv (ps : Parser) : Prop where
  outerNotWhere : ps.mode = .outer → isWhereStep ps.step = false
  inWhereWhere : ps.mode = .inWhere → isWhereStep ps.step = true
  condNonempty : isCondStep ps.step = true → ps.query.Conditions ≠ []
  unknownIff : ps.query.Typ = .UnknownType ↔ ps.step = .stepType
  startConds : ps.step = .stepType → ps.query.Conditions = []
  insertShape : ps.query.Typ = .Insert →
    ps.query.Conditions = [] ∧ isInsertStep ps.step = true

/-- What one loop iteration guarantees: a continuation state satisfies
the invariant; a returning state satisfies it and, if it returns without
error, is not in `stepWhereField` with an empty condition list. -/
def StepOk : StepRes → Prop
  | .cont ps' => Inv ps'
  | .halt ps' e =>
    Inv ps' ∧ (e = none → ps'.query.Conditions = [] → ps'.step ≠ .stepWhereField)

/-- The invariant only reads the mode, the step, the query type and the
condition list. -/
theorem Inv.of_projections {ps ps' : Parser} (h : Inv ps)
    (hmode : ps'.mode = ps.mode) (hstep : ps'.step = ps.step)
    (hty : ps'.query.Typ = ps.query.Typ)
    (hconds : ps'.query.Conditions = ps.query.Conditions) : Inv ps' := by
  refine ⟨?_, ?_, ?_, ?_, ?_, ?_⟩ <;> simp only [hmode, hstep, hty, hconds] <;>
    first
      | exact h.outerNotWhere
      | exact h.inWhereWhere
      | exact h.condNonempty
      | exact h.unknownIff
      | exact h.startConds
      | exact h.insertShape

/-- A step that is not `stepType` has a resolved query type. -/
theorem typ_ne_unknown {ps : Parser} (h : Inv ps) (hne : ps.step ≠ .stepType) :
    ps.query.Typ ≠ .UnknownType :=
  fun hc => hne (h.unknownIff.mp hc)

/-- A step outside the INSERT clause rules out the Insert type. -/
theorem typ_ne_insert {ps : Parser} (h : Inv ps) (hni : isInsertStep ps.step = false) :
    ps.query.Typ ≠ .Insert :=
  fun hc => by have h2 := (h.insertShape hc).2; rw [hni] at h2; cases h2

theorem doStepType_ok (ps : Parser) (h : Inv ps) (hs : ps.step = .stepType)
    (hm : ps.mode = .outer) : StepOk (doStepType ps) := by
  have hty : ps.query.Typ = .UnknownType := h.unknownIff.mpr hs
  have hconds : ps.query.Conditions = [] := h.startConds hs
  unfold doStepType
  dsimp only
  split_ifs <;>
    first
      | exact ⟨Inv.of_projections h (by simp) (by simp [hs]) (by simp) (by simp), by simp⟩
      | (refine ⟨?_, ?_, ?_, ?_, ?_, ?_⟩ <;>
          simp [isWhereStep, isCondStep, isInsertStep, hm, hs, hty, hconds])

theorem doSelectField_ok (ps : Parser) (h : Inv ps) (hs : ps.step = .stepSelectField)
    (hm : ps.mode = .outer) : StepOk (doSelectField ps) := by
  have hty := typ_ne_unknown h (by rw [hs]; simp)
  have hins := typ_ne_insert h (by rw [hs]; rfl)
  unfold doSelectField
  dsimp only
  split_ifs <;>
    first
      | exact ⟨Inv.of_projections h (by simp) (by simp [hs]) (by simp) (by simp), by simp⟩
      | (refine ⟨?_, ?_, ?_, ?_, ?_, ?_⟩ <;>
          simp [isWhereStep, isCondStep, isInsertStep, hm, hs, hty, hins])

theorem doSelectComma_ok (ps : Parser) (h : Inv ps) (hs : ps.step = .stepSelectComma)
    (hm : ps.mode = .outer) : StepOk (doSelectComma ps) := by
  have hty := typ_ne_unknown h (by rw [hs]; simp)
  have hins := typ_ne_insert h (by rw [hs]; rfl)
  unfold doSelectComma
  dsimp only
  split_ifs <;>
    first
      | exact ⟨Inv.of_projections h (by simp) (by simp [hs]) (by simp) (by simp), by simp⟩
      | (refine ⟨?_, ?_, ?_, ?_, ?_, ?_⟩ <;>
          simp [isWhereStep, isCondStep, isInsertStep, hm, hs, hty, hins])

theorem doSelectFrom_ok (ps : Parser) (h : Inv ps) (hs : ps.step = .stepSelectFrom)
    (hm : ps.mode = .outer) : StepOk (doSelectFrom ps) := by
  have hty := typ_ne_unknown h (by rw [hs]; simp)
  have hins := typ_ne_insert h (by rw [hs]; rfl)
  unfold doSelectFrom
  dsimp only
  split_ifs <;>
    first
      | exact ⟨Inv.of_projections h (by simp) (by simp [hs]) (by simp) (by simp), by simp⟩
      | (refine ⟨?_, ?_, ?_, ?_, ?_, ?_⟩ <;>
          simp [isWhereStep, isCondStep, isInsertStep, hm, hs, hty, hins])

theorem doTableName_ok (next : Step) (emsg : Str) (ps : Parser) (h : Inv ps)
    (hsn : ps.step ≠ .stepType) (hsw : isWhereStep ps.step = false)
    (hsc : isCondStep ps.step = false)
    (hnw : isWhereStep next = false) (hnc : isCondStep next = false)
    (hnt : next ≠ .stepType)
    (hshape : ps.query.Typ = .Insert → isInsertStep next = true)
    (hm : ps.mode = .outer) : StepOk (doTableName next emsg ps) := by
  have hty := typ_ne_unknown h hsn
  unfold doTableName
  dsimp only
  split_ifs
  · exact ⟨Inv.of_projections h (by simp) (by simp) (by simp) (by simp), by simp⟩
  · refine ⟨?_, ?_, ?_, ?_, ?_, ?_⟩
    · simp [hm, hnw]
    · simp [hm]
    · simp [hnc]
    · simp [hty, hnt]
    · simp [hnt]
    · intro hIns
      simp only [pop_query] at hIns ⊢
      simp at hIns ⊢
      exact ⟨(h.insertShape hIns).1, hshape hIns⟩

theorem doUpdateSet_ok (ps : Parser) (h : Inv ps) (hs : ps.step = .stepUpdateSet)
    (hm : ps.mode = .outer) : StepOk (doUpdateSet ps) := by
  have hty := typ_ne_unknown h (by rw [hs]; simp)
  have hins := typ_ne_insert h (by rw [hs]; rfl)
  unfold doUpdateSet
  dsimp only
  split_ifs <;>
    first
      | exact ⟨Inv.of_projections h (by simp) (by simp [hs]) (by simp) (by simp), by simp⟩
      | (refine ⟨?_, ?_, ?_, ?_, ?_, ?_⟩ <;>
          simp [isWhereStep, isCondStep, isInsertStep, hm, hs, hty, hins])

theorem doUpdateField_ok (ps : Parser) (h : Inv ps) (hs : ps.step = .stepUpdateField)
    (hm : ps.mode = .outer) : StepOk (doUpdateField ps) := by
  have hty := typ_ne_unknown h (by rw [hs]; simp)
  have hins := typ_ne_insert h (by rw [hs]; rfl)
  unfold doUpdateField
  dsimp only
  split_ifs <;>
    first
      | exact ⟨Inv.of_projections h (by simp) (by simp [hs]) (by simp) (by simp), by simp⟩
      | (refine ⟨?_, ?_, ?_, ?_, ?_, ?_⟩ <;>
          simp [isWhereStep, isCondStep, isInsertStep, hm, hs, hty, hins])

theorem doUpdateEquals_ok (ps : Parser) (h : Inv ps) (hs : ps.step = .stepUpdateEquals)
    (hm : ps.mode = .outer) : StepOk (doUpdateEquals ps) := by
  have hty := typ_ne_unknown h (by rw [hs]; simp)
  have hins := typ_ne_insert h (by rw [hs]; rfl)
  unfold doUpdateEquals
  dsimp only
  split_ifs <;>
    first
      | exact ⟨Inv.of_projections h (by simp) (by simp [hs]) (by simp) (by simp), by simp⟩
      | (refine ⟨?_, ?_, ?_, ?_, ?_, ?_⟩ <;>
          simp [isWhereStep, isCondStep, isInsertStep, hm, hs, hty, hins])

theorem doUpdateValue_ok (ps : Parser) (h : Inv ps) (hs : ps.step = .stepUpdateValue)
    (hm : ps.mode = .outer) : StepOk (doUpdateValue ps) := by
  have hty := typ_ne_unknown h (by rw [hs]; simp)
  have hins := typ_ne_insert h (by rw [hs]; rfl)
  unfold doUpdateValue
  dsimp only
  split_ifs <;>
    first
      | exact ⟨Inv.of_projections h (by simp) (by simp [hs]) (by simp) (by simp), by simp⟩
      | (refine ⟨?_, ?_, ?_, ?_, ?_, ?_⟩ <;>
          simp [isWhereStep, isCondStep, isInsertStep, hm, hs, hty, hins])

theorem doUpdateComma_ok (ps : Parser) (h : Inv ps) (hs : ps.step = .stepUpdateComma)
    (hm : ps.mode = .outer) : StepOk (doUpdateComma ps) := by
  have hty := typ_ne_unknown h (by rw [hs]; simp)
  have hins := typ_ne_insert h (by rw [hs]; rfl)
  unfold doUpdateComma
  dsimp only
  split_ifs <;>
    first
      | exact ⟨Inv.of_projections h (by simp) (by simp [hs]) (by simp) (by simp), by simp⟩
      | (refine ⟨?_, ?_, ?_, ?_, ?_, ?_⟩ <;>
          simp [isWhereStep, isCondStep, isInsertStep, hm, hs, hty, hins])

theorem doWhere_ok (ps : Parser) (h : Inv ps) (hs : ps.step = .stepWhere)
    (hm : ps.mode = .outer) : StepOk (doWhere ps) := by
  have hty := typ_ne_unknown h (by rw [hs]; simp)
  have hins := typ_ne_insert h (by rw [hs]; rfl)
  unfold doWhere
  dsimp only
  split_ifs <;>
    first
      | exact ⟨Inv.of_projections h (by simp) (by simp [hs]) (by simp) (by simp), by simp⟩
      | (refine ⟨?_, ?_, ?_, ?_, ?_, ?_⟩ <;>
          simp [isWhereStep, isCondStep, isInsertStep, hm, hs, hty, hins])

theorem doInsertFieldsOpeningParens_ok (ps : Parser) (h : Inv ps)
    (hs : ps.step = .stepInsertFieldsOpeningParens) (hm : ps.mode = .outer) :
    StepOk (doInsertFieldsOpeningParens ps) := by
  have hty := typ_ne_unknown h (by rw [hs]; simp)
  unfold doInsertFieldsOpeningParens
  dsimp only
  split_ifs <;>
    first
      | exact ⟨Inv.of_projections h (by simp) (by simp [hs]) (by simp) (by simp), by simp⟩
      | (refine ⟨?_, ?_, ?_, ?_, ?_, ?_⟩ <;>
          simp [isWhereStep, isCondStep, isInsertStep, hm, hs, hty] <;>
          exact fun hIns => (h.insertShape hIns).1)

theorem doInsertFields_ok (ps : Parser) (h : Inv ps)
    (hs : ps.step = .stepInsertFields) (hm : ps.mode = .outer) :
    StepOk (doInsertFields ps) := by
  have hty := typ_ne_unknown h (by rw [hs]; simp)
  unfold doInsertFields
  dsimp only
  split_ifs <;>
    first
      | exact ⟨Inv.of_projections h (by simp) (by simp [hs]) (by simp) (by simp), by simp⟩
      | (refine ⟨?_, ?_, ?_, ?_, ?_, ?_⟩ <;>
          simp [isWhereStep, isCondStep, isInsertStep, hm, hs, hty] <;>
          exact fun hIns => (h.insertShape hIns).1)

theorem doInsertFieldsCommaOrClosingParens_ok (ps : Parser) (h : Inv ps)
    (hs : ps.step = .stepInsertFieldsCommaOrClosingParens) (hm : ps.mode = .outer) :
    StepOk (doInsertFieldsCommaOrClosingParens ps) := by
  have hty := typ_ne_unknown h (by rw [hs]; simp)
  unfold doInsertFieldsCommaOrClosingParens
  dsimp only
  split_ifs <;>
    first
      | exact ⟨Inv.of_projections h (by simp) (by simp [hs]) (by simp) (by simp), by simp⟩
      | (refine ⟨?_, ?_, ?_, ?_, ?_, ?_⟩ <;>
          simp [isWhereStep, isCondStep, isInsertStep, hm, hs, hty] <;>
          exact fun hIns => (h.insertShape hIns).1)

theorem doInsertValuesRWord_ok (ps : Parser) (h : Inv ps)
    (hs : ps.step = .stepInsertValuesRWord) (hm : ps.mode = .outer) :
    StepOk (doInsertValuesRWord ps) := by
  have hty := typ_ne_unknown h (by rw [hs]; simp)
  unfold doInsertValuesRWord
  dsimp only
  split_ifs <;>
    first
      | exact ⟨Inv.of_projections h (by simp) (by simp [hs]) (by simp) (by simp), by simp⟩
      | (refine ⟨?_, ?_, ?_, ?_, ?_, ?_⟩ <;>
          simp [isWhereStep, isCondStep, isInsertStep, hm, hs, hty] <;>
          exact fun hIns => (h.insertShape hIns).1)

theorem doInsertValuesOpeningParens_ok (ps : Parser) (h : Inv ps)
    (hs : ps.step = .stepInsertValuesOpeningParens) (hm : ps.mode = .outer) :
    StepOk (doInsertValuesOpeningParens ps) := by
  have hty := typ_ne_unknown h (by rw [hs]; simp)
  unfold doInsertValuesOpeningParens
  dsimp only
  split_ifs <;>
    first
      | exact ⟨Inv.of_projections h (by simp) (by simp [hs]) (by simp) (by simp), by simp⟩
      | (refine ⟨?_, ?_, ?_, ?_, ?_, ?_⟩ <;>
          simp [isWhereStep, isCondStep, isInsertStep, hm, hs, hty] <;>
          exact fun hIns => (h.insertShape hIns).1)

theorem doInsertValues_ok (ps : Parser) (h : Inv ps)
    (hs : ps.step = .stepInsertValues) (hm : ps.mode = .outer) :
    StepOk (doInsertValues ps) := by
  have hty := typ_ne_unknown h (by rw [hs]; simp)
  unfold doInsertValues
  dsimp only
  split_ifs <;>
    first
      | exact ⟨Inv.of_projections h (by simp) (by simp [hs]) (by simp) (by simp), by simp⟩
      | (refine ⟨?_, ?_, ?_, ?_, ?_, ?_⟩ <;>
          simp [isWhereStep, isCondStep, isInsertStep, hm, hs, hty] <;>
          exact fun hIns => (h.insertShape hIns).1)

theorem doInsertValuesCommaOrClosingParens_ok (ps : Parser) (h : Inv ps)
    (hs : ps.step = .stepInsertValuesCommaOrClosingParens) (hm : ps.mode = .outer) :
    StepOk (doInsertValuesCommaOrClosingParens ps) := by
  have hty := typ_ne_unknown h (by rw [hs]; simp)
  unfold doInsertValuesCommaOrClosingParens
  dsimp only
  split_ifs <;>
    first
      | exact ⟨Inv.of_projections h (by simp) (by simp [hs]) (by simp) (by simp), by simp⟩
      | (refine ⟨?_, ?_, ?_, ?_, ?_, ?_⟩ <;>
          simp [isWhereStep, isCondStep, isInsertStep, hm, hs, hty] <;>
          exact fun hIns => (h.insertShape hIns).1)

theorem doInsertValuesCommaBeforeOpeningParens_ok (ps : Parser) (h : Inv ps)
    (hs : ps.step = .stepInsertValuesCommaBeforeOpeningParens) (hm : ps.mode = .outer) :
    StepOk (doInsertValuesCommaBeforeOpeningParens ps) := by
  have hty := typ_ne_unknown h (by rw [hs]; simp)
  unfold doInsertValuesCommaBeforeOpeningParens
  dsimp only
  split_ifs <;>
    first
      | exact ⟨Inv.of_projections h (by simp) (by simp [hs]) (by simp) (by simp), by simp⟩
      | (refine ⟨?_, ?_, ?_, ?_, ?_, ?_⟩ <;>
          simp [isWhereStep, isCondStep, isInsertStep, hm, hs, hty] <;>
          exact fun hIns => (h.insertShape hIns).1)

theorem doWhereField_ok (ps : Parser) (h : Inv ps) (hs : ps.step = .stepWhereField)
    (hm : ps.mode = .inWhere) : StepOk (doWhereField ps) := by
  have hty := typ_ne_unknown h (by rw [hs]; simp)
  have hins := typ_ne_insert h (by rw [hs]; rfl)
  unfold doWhereField
  dsimp only
  split_ifs with h1 h2 h3 h4
  · refine ⟨?_, ?_, ?_, ?_, ?_, ?_⟩ <;>
      simp [isWhereStep, isCondStep, isInsertStep, hm, hs, hty, hins]
  · exact ⟨Inv.of_projections h (by simp) (by simp [hs]) (by simp) (by simp), by simp⟩
  · exact ⟨Inv.of_projections h (by simp) (by simp [hs]) (by simp) (by simp), by simp⟩
  · refine ⟨Inv.of_projections h (by simp) (by simp [hs]) (by simp) (by simp), ?_⟩
    intro _ hc
    exact absurd (by simpa using hc) h4
  · refine ⟨?_, ?_, ?_, ?_, ?_, ?_⟩ <;>
      simp [isWhereStep, isCondStep, isInsertStep, hm, hs, hty, hins]

theorem doWhereOperator_ok (ps : Parser) (h : Inv ps) (hs : ps.step = .stepWhereOperator)
    (hm : ps.mode = .inWhere) : StepOk (doWhereOperator ps) := by
  have hty := typ_ne_unknown h (by rw [hs]; simp)
  have hins := typ_ne_insert h (by rw [hs]; rfl)
  unfold doWhereOperator
  dsimp only
  split <;>
    first
      | exact ⟨Inv.of_projections h (by simp) (by simp [hs]) (by simp) (by simp), by simp⟩
      | (refine ⟨?_, ?_, ?_, ?_, ?_, ?_⟩ <;>
          simp [isWhereStep, isCondStep, isInsertStep, hm, hs, hty, hins])

theorem doWhereValue_ok (ps : Parser) (h : Inv ps) (hs : ps.step = .stepWhereValue)
    (hm : ps.mode = .inWhere) : StepOk (doWhereValue ps) := by
  have hty := typ_ne_unknown h (by rw [hs]; simp)
  have hins := typ_ne_insert h (by rw [hs]; rfl)
  unfold doWhereValue
  dsimp only
  split_ifs <;>
    first
      | exact ⟨Inv.of_projections h (by simp) (by simp [hs]) (by simp) (by simp), by simp⟩
      | (refine ⟨?_, ?_, ?_, ?_, ?_, ?_⟩ <;>
          simp [isWhereStep, isCondStep, isInsertStep, hm, hs, hty, hins])

theorem doWhereAnd_ok (ps : Parser) (h : Inv ps) (hs : ps.step = .stepWhereAnd)
    (hm : ps.mode = .inWhere) : StepOk (doWhereAnd ps) := by
  have hty := typ_ne_unknown h (by rw [hs]; simp)
  have hins := typ_ne_insert h (by rw [hs]; rfl)
  have hcond := h.condNonempty (by rw [hs]; rfl)
  unfold doWhereAnd
  dsimp only
  split_ifs <;>
    first
      | exact ⟨Inv.of_projections h (by simp) (by simp [hs]) (by simp) (by simp), by simp⟩
      | (refine ⟨?_, ?_, ?_, ?_, ?_, ?_⟩ <;>
          simp [isWhereStep, isCondStep, isInsertStep, hm, hs, hty, hins, hcond])

/-- One scan iteration preserves the invariant, and a no-error return is
never made from `stepWhereField` with an empty condition list. -/
theorem stepOnce_ok (ps : Parser) (h : Inv ps) : StepOk (stepOnce ps) := by
  unfold stepOnce
  cases hmode : ps.mode with
  | outer =>
    dsimp only
    split_ifs
    · refine ⟨h, fun _ hc hwf => ?_⟩
      have hw := h.outerNotWhere hmode
      rw [hwf] at hw
      simp [isWhereStep] at hw
    · cases hstep : ps.step
      · exact doStepType_ok ps h hstep hmode
      · exact doSelectField_ok ps h hstep hmode
      · exact doSelectFrom_ok ps h hstep hmode
      · exact doSelectComma_ok ps h hstep hmode
      · exact doTableName_ok _ _ ps h (by rw [hstep]; simp) (by rw [hstep]; rfl)
          (by rw [hstep]; rfl) rfl rfl (by simp) (fun hIns =>
            absurd hIns (typ_ne_insert h (by rw [hstep]; rfl))) hmode
      · exact doTableName_ok _ _ ps h (by rw [hstep]; simp) (by rw [hstep]; rfl)
          (by rw [hstep]; rfl) rfl rfl (by simp) (fun _ => rfl) hmode
      · exact doInsertFieldsOpeningParens_ok ps h hstep hmode
      · exact doInsertFields_ok ps h hstep hmode
      · exact doInsertFieldsCommaOrClosingParens_ok ps h hstep hmode
      · exact doInsertValuesOpeningParens_ok ps h hstep hmode
      · exact doInsertValuesRWord_ok ps h hstep hmode
      · exact doInsertValues_ok ps h hstep hmode
      · exact doInsertValuesCommaOrClosingParens_ok ps h hstep hmode
      · exact doInsertValuesCommaBeforeOpeningParens_ok ps h hstep hmode
      · exact doTableName_ok _ _ ps h (by rw [hstep]; simp) (by rw [hstep]; rfl)
          (by rw [hstep]; rfl) rfl rfl (by simp) (fun hIns =>
            absurd hIns (typ_ne_insert h (by rw [hstep]; rfl))) hmode
      · exact doUpdateSet_ok ps h hstep hmode
      · exact doUpdateField_ok ps h hstep hmode
      · exact doUpdateEquals_ok ps h hstep hmode
      · exact doUpdateValue_ok ps h hstep hmode
      · exact doUpdateComma_ok ps h hstep hmode
      · exact doTableName_ok _ _ ps h (by rw [hstep]; simp) (by rw [hstep]; rfl)
          (by rw [hstep]; rfl) rfl rfl (by simp) (fun hIns =>
            absurd hIns (typ_ne_insert h (by rw [hstep]; rfl))) hmode
      · exact doWhere_ok ps h hstep hmode
      all_goals
        have hw := h.outerNotWhere hmode
        rw [hstep] at hw
        simp [isWhereStep] at hw
  | inWhere =>
    dsimp only
    split_ifs with hlen hcs
    · exact ⟨h, by simp⟩
    · exact ⟨h, fun _ hc => absurd hc hcs⟩
    · cases hstep : ps.step
      rotate_left 22
      · exact doWhereField_ok ps h hstep hmode
      · exact doWhereOperator_ok ps h hstep hmode
      · exact doWhereValue_ok ps h hstep hmode
      · exact doWhereAnd_ok ps h hstep hmode
      all_goals
        have hw := h.inWhereWhere hmode
        rw [hstep] at hw
        simp [isWhereStep] at hw

/-- The initial state satisfies the invariant. -/
theorem inv_initialParser (t : Str) : Inv (initialParser t) := by
  refine ⟨?_, ?_, ?_, ?_, ?_, ?_⟩ <;>
    simp [initialParser, emptyQuery, isWhereStep, isCondStep]

/-- Running the scan from an invariant state lands in an invariant
state; when the scan returns without error, it is not in
`stepWhereField` with an empty condition list. -/
theorem run_ok (fuel : Nat) (ps : Parser) (h : Inv ps) {ps' : Parser}
    {e : Option ErrorWithPos} (hr : run fuel ps = some (ps', e)) :
    Inv ps' ∧ (e = none → ps'.query.Conditions = [] → ps'.step ≠ .stepWhereField) := by
  induction fuel generalizing ps with
  | zero => cases hr
  | succ n ih =>
    rw [run] at hr
    cases hso : stepOnce ps with
    | cont ps2 =>
      rw [hso] at hr
      have hok := stepOnce_ok ps h
      rw [hso] at hok
      exact ih ps2 hok hr
    | halt ps2 e2 =>
      rw [hso] at hr
      have hok := stepOnce_ok ps h
      rw [hso] at hok
      cases hr
      exact hok

/-- A state the scan passes through, starting from `Parse`'s initial
state on input `s`: the initial state itself, and the target of every
loop iteration taken from a reachable state. -/
inductive Reachable (s : Str) : Parser → Prop
  | init : Reachable s (initialParser (trimSpace s))
  | step {ps ps' : Parser} : Reachable s ps → stepOnce ps = .cont ps' → Reachable s ps'

/-- Every reachable state satisfies the invariant. -/
theorem reachable_inv {s : Str} {ps : Parser} (h : Reachable s ps) : Inv ps := by
  induction h with
  | init => exact inv_initialParser _
  | step hr hso ih =>
    have hok := stepOnce_ok _ ih
    rw [hso] at hok
    exact hok

/-- Follow `n` loop iterations (stopping early at a return): a helper to
exhibit concrete reachable states. -/
def iterCont : Nat → Parser → Parser
  | 0, ps => ps
  | n + 1, ps =>
    match stepOnce ps with
    | .cont ps' => iterCont n ps'
    | .halt _ _ => ps

/-- Every state `iterCont` lands on from a reachable state is
reachable. -/
theorem reachable_iterCont {s : Str} (n : Nat) {ps : Parser} (h : Reachable s ps) :
    Reachable s (iterCont n ps) := by
  induction n generalizing ps with
  | zero => exact h
  | succ m ih =>
    rw [iterCont]
    cases hso : stepOnce ps with
    | cont ps2 => exact ih (Reachable.step h hso)
    | halt ps2 e2 => exact h

/-! Case-insensitivity of the tokenizer: the upper-cased peek is the
ASCII upcasing of the original-case peek. -/

theorem toNat_ofNat_small {n : Nat} (h : n < 55296) : (Char.ofNat n).toNat = n := by
  rw [Char.ofNat, dif_pos (Or.inl h)]
  rfl

theorem char_le_toNat {a b : Char} (h : a ≤ b) : a.toNat ≤ b.toNat := by
  rw [Char.le_def, UInt32.le_def, BitVec.le_def] at h
  exact h

theorem toNat_lt_of_symbol {x : Char} (h : reservedSymbol x = true) : x.toNat < 65 := by
  rw [reservedSymbol] at h
  simp only [decide_eq_true_eq] at h
  rcases h with rfl | rfl | rfl | rfl | rfl | rfl | rfl | rfl <;> decide

theorem asciiUpper_of_symbol {c : Char} (h : reservedSymbol (asciiUpper c) = true) :
    asciiUpper c = c := by
  by_cases hlow : 'a' ≤ c ∧ c ≤ 'z'
  · exfalso
    rw [asciiUpper, if_pos hlow] at h
    have h97 : 97 ≤ c.toNat := char_le_toNat hlow.1
    have h122 : c.toNat ≤ 122 := char_le_toNat hlow.2
    have hofnat : (Char.ofNat (c.toNat - 32)).toNat = c.toNat - 32 :=
      toNat_ofNat_small (by omega)
    have hlt := toNat_lt_of_symbol h
    omega
  · rw [asciiUpper, if_neg hlow]

theorem getC_eq_getElem {s : Str} {m : Nat} (h : m < s.length) : getC s m = s[m] := by
  simp [getC, List.getD_eq_getElem?_getD, List.getElem?_eq_getElem h]

theorem getC_toUp {s : Str} {m : Nat} (h : m < s.length) :
    getC (toUp s) m = asciiUpper (getC s m) := by
  have h2 : m < (toUp s).length := by simpa [toUp]
  rw [getC_eq_getElem h2, getC_eq_getElem h]
  simp [toUp]

theorem toUp_slice (s : Str) (a b : Nat) : toUp (slice s a b) = slice (toUp s) a b := by
  simp [toUp, slice, List.map_take, List.map_drop]

theorem toUp_eq_self_of_fixed {l : Str} (h : ∀ c ∈ l, asciiUpper c = c) : toUp l = l := by
  unfold toUp
  exact (List.map_congr_left h).trans (List.map_id l)

theorem mem_slice {s : Str} {a b : Nat} {c : Char} (h : c ∈ slice s a b) :
    ∃ m, a ≤ m ∧ m < b ∧ m < s.length ∧ c = getC s m := by
  rw [slice] at h
  obtain ⟨k, hk, hek⟩ := List.getElem_of_mem h
  have hk' := hk
  rw [List.length_take, List.length_drop] at hk'
  have h1 : k < b - a := Nat.lt_of_lt_of_le hk' (Nat.min_le_left _ _)
  have h2 : k < s.length - a := Nat.lt_of_lt_of_le hk' (Nat.min_le_right _ _)
  refine ⟨a + k, Nat.le_add_right a k, by omega, by omega, ?_⟩
  rw [← hek]
  rw [List.getElem_take, List.getElem_drop, getC_eq_getElem (by omega)]

theorem slice_fixed_of_symbols {s : Str} {a b : Nat}
    (h : ∀ m, a ≤ m → m < b → m < s.length → reservedSymbol (asciiUpper (getC s m)) = true) :
    toUp (slice s a b) = slice s a b := by
  apply toUp_eq_self_of_fixed
  intro c hc
  obtain ⟨m, ham, hmb, hml, rfl⟩ := mem_slice hc
  exact asciiUpper_of_symbol (h m ham hmb hml)

theorem length_toUp (s : Str) : (toUp s).length = s.length := by simp [toUp]

theorem peekIdentifierWithLength_upper (ps : Parser) (hwf : ps.sqlUpper = toUp ps.sql)
    (hi : ps.i < ps.sql.length) :
    (peekIdentifierWithLength true ps).1 = toUp (peekIdentifierWithLength false ps).1
    ∧ (peekIdentifierWithLength true ps).2 = (peekIdentifierWithLength false ps).2 := by
  unfold peekIdentifierWithLength
  dsimp only
  by_cases hsym : reservedSymbol (getC ps.sqlUpper ps.i) = true
  · rw [if_pos hsym]; try rw [if_pos hsym]
    have hsymi : reservedSymbol (asciiUpper (getC ps.sql ps.i)) = true := by
      rw [← getC_toUp hi, ← hwf]
      exact hsym
    by_cases hpar : getC ps.sql ps.i = '(' ∨ getC ps.sql ps.i = ')'
    · rw [if_pos hpar]; try rw [if_pos hpar]
      refine ⟨?_, by trivial⟩
      refine (slice_fixed_of_symbols ?_).symm
      intro m ham hmb hml
      have hmb2 : m < ps.i + 1 := hmb
      have hmi : m = ps.i := by omega
      subst hmi
      rcases hpar with hp | hp <;> rw [hp] <;> decide
    · rw [if_neg hpar]; try rw [if_neg hpar]
      cases hfind : ((ps.sqlUpper.drop (ps.i + 1)).zip (ps.sql.drop (ps.i + 1))).findIdx?
          (fun pr => (¬ reservedSymbol pr.1 ∨ pr.2 = '(' ∨ pr.2 = ')' : Bool)) with
      | some k =>
        simp only [hfind]
        refine ⟨?_, by trivial⟩
        refine (slice_fixed_of_symbols ?_).symm
        intro m ham hmb hml
        have hmb2 : m < ps.i + 1 + k := hmb
        rcases Nat.eq_or_lt_of_le ham with hmi | hmi
        · rw [← hmi]
          exact hsymi
        · obtain ⟨hklt, _, hall⟩ := List.findIdx?_eq_some_iff_getElem.mp hfind
          have hm1 : ps.i + 1 ≤ m := hmi
          have hmm : m - (ps.i + 1) < k := by omega
          have hpair := hall (m - (ps.i + 1)) hmm
          rw [List.getElem_zip] at hpair
          simp only [Bool.not_eq_true, decide_eq_false_iff_not, not_or, Decidable.not_not,
            Bool.not_eq_false] at hpair
          have hlenU : ps.sqlUpper.length = ps.sql.length := by rw [hwf, length_toUp]
          have hidx : GetElem.getElem (ps.sqlUpper.drop (ps.i + 1)) (m - (ps.i + 1))
              (by rw [List.length_drop, hlenU]; omega) = getC ps.sqlUpper m := by
            rw [List.getElem_drop, getC_eq_getElem (by rw [hlenU]; omega)]
            congr 1
            omega
          have hsm : reservedSymbol (getC ps.sqlUpper m) = true := by
            rw [← hidx]
            exact hpair.1
          rw [hwf, getC_toUp hml] at hsm
          exact hsm
      | none =>
        simp only [hfind]
        refine ⟨?_, by trivial⟩
        refine (slice_fixed_of_symbols ?_).symm
        intro m ham hmb hml
        have hmb2 : m < ps.sql.length := hml
        rcases Nat.eq_or_lt_of_le ham with hmi | hmi
        · rw [← hmi]
          exact hsymi
        · have hall := List.findIdx?_eq_none_iff.mp hfind
          have hm1 : ps.i + 1 ≤ m := hmi
          have hlenU : ps.sqlUpper.length = ps.sql.length := by rw [hwf, length_toUp]
          have hlen : m - (ps.i + 1) <
              ((ps.sqlUpper.drop (ps.i + 1)).zip (ps.sql.drop (ps.i + 1))).length := by
            rw [List.length_zip, List.length_drop, List.length_drop, hlenU]
            omega
          have hpair := hall _ (List.getElem_mem hlen)
          rw [List.getElem_zip] at hpair
          simp only [Bool.not_eq_true, decide_eq_false_iff_not, not_or, Decidable.not_not,
            Bool.not_eq_false, decide_eq_false_iff_not] at hpair
          have hidx : GetElem.getElem (ps.sqlUpper.drop (ps.i + 1)) (m - (ps.i + 1))
              (by rw [List.length_drop, hlenU]; omega) = getC ps.sqlUpper m := by
            rw [List.getElem_drop, getC_eq_getElem (by rw [hlenU]; omega)]
            congr 1
            omega
          have hsm : reservedSymbol (getC ps.sqlUpper m) = true := by
            rw [← hidx]
            exact hpair.1
          rw [hwf, getC_toUp hml] at hsm
          exact hsm
  · rw [if_neg hsym]; try rw [if_neg hsym]
    cases hfind : (ps.sql.drop ps.i).findIdx? (fun c => !(isIdentSymbol c)) with
    | some k =>
      simp only [hfind]
      exact ⟨by simp [hwf, toUp_slice], by trivial⟩
    | none =>
      simp only [hfind]
      exact ⟨by simp [hwf, toUp_slice], by trivial⟩

theorem peekWithLength_upper (ps : Parser) (hwf : ps.sqlUpper = toUp ps.sql) :
    (peekWithLength true ps).2.1 = toUp ((peekWithLength false ps).2.1)
    ∧ (peekWithLength true ps).2.2 = (peekWithLength false ps).2.2 := by
  unfold peekWithLength
  by_cases h1 : ps.i ≥ ps.sql.length
  · rw [if_pos h1]; try rw [if_pos h1]
    exact ⟨by simp [toUp], by trivial⟩
  · rw [if_neg h1]; try rw [if_neg h1]
    by_cases h2 : getC ps.sql ps.i = squote
    · rw [if_pos h2]; try rw [if_pos h2]
      unfold peekQuotedStringWithLength
      dsimp only
      cases hfind : ((ps.sql.drop ps.i).zip (ps.sql.drop (ps.i + 1))).findIdx?
          (fun pr => (pr.2 = squote ∧ pr.1 ≠ bslash : Bool)) with
      | some k =>
        simp only [hfind]
        exact ⟨by simp [hwf, toUp_slice], by trivial⟩
      | none =>
        simp only [hfind]
        exact ⟨by simp [toUp], by trivial⟩
    · rw [if_neg h2]; try rw [if_neg h2]
      exact peekIdentifierWithLength_upper ps hwf (by omega)

/-! Facts feeding the claim theorems: how `parse` decomposes, and what
the validator checks imply. -/

theorem parse_eq_of_scan {s : Str} {ps : Parser} (h : scanRun s = some (ps, none)) :
    parse s = (ps.query, validate ps) := by
  rw [parse, h]

theorem parse_eq_of_scan_err {s : Str} {ps : Parser} {e : ErrorWithPos}
    (h : scanRun s = some (ps, some e)) : parse s = (ps.query, some e) := by
  rw [parse, h]

theorem parse_success_validate {s : Str} {q : Query} (h : parse s = (q, none)) :
    ∃ ps, scanRun s = some (ps, none) ∧ ps.query = q ∧ validate ps = none := by
  rw [parse] at h
  cases hscan : scanRun s with
  | none =>
    rw [hscan] at h
    simp at h
  | some r =>
    rcases r with ⟨ps, e⟩
    cases e with
    | none =>
      rw [hscan] at h
      refine ⟨ps, rfl, congrArg Prod.fst h, congrArg Prod.snd h⟩
    | some e2 =>
      rw [hscan] at h
      simp at h

/-- A successful SELECT parse has as many aliases as fields. -/
theorem select_len_eq {s : Str} {q : Query} (hp : parse s = (q, none))
    (hty : q.Typ = .Select) : q.Fields.length = q.Aliases.length := by
  obtain ⟨ps, hscan, hq, hv⟩ := parse_success_validate hp
  subst hq
  rw [validate] at hv
  cases hfs : ps.query.Conditions.findSome? (conditionErr ps.i) with
  | some e =>
    rw [hfs] at hv
    split_ifs at hv <;> exact Option.noConfusion hv
  | none =>
    rw [hfs] at hv
    split_ifs at hv with h1 h2 h3 h4 h5 h6 h7 <;> try exact Option.noConfusion hv
    by_contra hne
    exact h7 ⟨hty, hne⟩

/-- A successful INSERT parse has at least one row, all of field length. -/
theorem insert_rows_ok {s : Str} {q : Query} (hp : parse s = (q, none))
    (hty : q.Typ = .Insert) :
    q.Inserts ≠ [] ∧ ∀ r ∈ q.Inserts, r.length = q.Fields.length := by
  obtain ⟨ps, hscan, hq, hv⟩ := parse_success_validate hp
  subst hq
  rw [validate] at hv
  cases hfs : ps.query.Conditions.findSome? (conditionErr ps.i) with
  | some e =>
    rw [hfs] at hv
    split_ifs at hv <;> exact Option.noConfusion hv
  | none =>
    rw [hfs] at hv
    split_ifs at hv with h1 h2 h3 h4 h5 h6 h7 <;> try exact Option.noConfusion hv
    constructor
    · intro hnil
      exact h5 ⟨hty, hnil⟩
    · intro r hr
      by_contra hne
      exact h6 ⟨hty, List.any_eq_true.mpr ⟨r, hr, by simpa using hne⟩⟩

/-- A completed INSERT scan with a table name fails on missing or short rows. -/
theorem insert_rows_errors {s : Str} {ps : Parser} (hscan : scanRun s = some (ps, none))
    (hty : ps.query.Typ = .Insert) (htn : ps.query.TableName ≠ []) :
    (ps.query.Inserts = [] →
      (parse s).2 = some ⟨"at INSERT INTO: need at least one row to insert".data, ps.i⟩)
    ∧ ((∃ r ∈ ps.query.Inserts, r.length ≠ ps.query.Fields.length) →
      (parse s).2 = some ⟨"at INSERT INTO: value count doesn't match field count".data, ps.i⟩) := by
  have hinv := (run_ok _ _ (inv_initialParser _) hscan).1
  obtain ⟨hconds, hstep⟩ := hinv.insertShape hty
  have hnw : ps.step ≠ .stepWhereField := by
    intro hc
    rw [hc] at hstep
    simp [isInsertStep] at hstep
  have hparse := parse_eq_of_scan hscan
  rw [hparse]
  dsimp only
  rw [validate]
  rw [if_neg (by intro hc; exact hnw hc.2)]
  rw [if_neg (by rw [hty]; simp)]
  rw [if_neg (by intro hc; exact htn hc.2)]
  rw [if_neg (by rw [hty]; simp)]
  rw [hconds]
  simp only [List.findSome?_nil]
  constructor
  · intro hnil
    rw [if_pos ⟨hty, hnil⟩]
  · intro ⟨r, hr, hlen⟩
    rw [if_neg (by intro hc; rw [hc.2] at hr; cases hr)]
    rw [if_pos ⟨hty, List.any_eq_true.mpr ⟨r, hr, by simpa using hlen⟩⟩]

/-- A completed UPDATE or DELETE scan with a table name and no conditions fails. -/
theorem where_mandatory {s : Str} {ps : Parser} (hscan : scanRun s = some (ps, none))
    (hty : ps.query.Typ = .Update ∨ ps.query.Typ = .Delete)
    (hconds : ps.query.Conditions = []) (htn : ps.query.TableName ≠ []) :
    (parse s).2 =
      some ⟨"at WHERE: WHERE clause is mandatory for UPDATE & DELETE".data, ps.i⟩ := by
  have hok := run_ok _ _ (inv_initialParser _) hscan
  have hnw : ps.step ≠ .stepWhereField := hok.2 rfl hconds
  have hparse := parse_eq_of_scan hscan
  rw [hparse]
  dsimp only
  rw [validate]
  rw [if_neg (by intro hc; exact hnw hc.2)]
  rw [if_neg (by rcases hty with h | h <;> rw [h] <;> simp)]
  rw [if_neg (by intro hc; exact htn hc.2)]
  rw [if_pos ⟨hconds, hty⟩]

/-- A successful UPDATE or DELETE parse has at least one condition. -/
theorem where_nonempty_of_success {s : Str} {q : Query} (hp : parse s = (q, none))
    (hty : q.Typ = .Update ∨ q.Typ = .Delete) : q.Conditions ≠ [] := by
  obtain ⟨ps, hscan, hq, hv⟩ := parse_success_validate hp
  subst hq
  rw [validate] at hv
  cases hfs : ps.query.Conditions.findSome? (conditionErr ps.i) with
  | some e =>
    rw [hfs] at hv
    split_ifs at hv <;> exact Option.noConfusion hv
  | none =>
    rw [hfs] at hv
    split_ifs at hv with h1 h2 h3 h4 h5 h6 h7 <;> try exact Option.noConfusion hv
    exact fun hnil => h4 ⟨hnil, hty⟩

/-- Whitespace-only input fails with the empty-type error at offset 0. -/
theorem empty_type_error_ws {s : Str} (htrim : trimSpace s = []) :
    (parse s).2 = some ⟨"query type cannot be empty".data, 0⟩ := by
  have hscan : scanRun s = some (initialParser [], none) := by
    rw [scanRun, htrim]
    rfl
  rw [parse, hscan]
  rfl

theorem empty_type_error_general {s : Str} {ps : Parser}
    (hscan : scanRun s = some (ps, none)) (hty : ps.query.Typ = .UnknownType) :
    (parse s).2 = some ⟨"query type cannot be empty".data, ps.i⟩ := by
  have hinv := (run_ok _ _ (inv_initialParser _) hscan).1
  have hstep : ps.step = .stepType := hinv.unknownIff.mp hty
  have hparse := parse_eq_of_scan hscan
  rw [hparse]
  dsimp only
  rw [validate]
  rw [if_neg (by intro hc; rw [hstep] at hc; cases hc.2)]
  rw [if_pos hty]

/-! Order and error-position facts. -/

theorem parseMany_all_ok (l : List Str) (h : ∀ s ∈ l, (parse s).2 = none) :
    parseMany l = (l.map (fun s => (parse s).1), none) := by
  induction l with
  | nil => rfl
  | cons s t ih =>
    have hs := h s (by simp)
    rw [parseMany]
    rcases hp : parse s with ⟨q, e⟩
    rw [hp] at hs
    dsimp only at hs
    subst hs
    rw [ih (fun x hx => h x (by simp [hx]))]
    simp [hp]

theorem parseMany_first_err (l1 : List Str) (x : Str) (l2 : List Str) (e : ErrorWithPos)
    (h1 : ∀ s ∈ l1, (parse s).2 = none) (hx : (parse x).2 = some e) :
    parseMany (l1 ++ x :: l2) = (l1.map (fun s => (parse s).1), some e) := by
  induction l1 with
  | nil =>
    rw [List.nil_append, parseMany]
    rcases hp : parse x with ⟨q, e2⟩
    rw [hp] at hx
    dsimp only at hx
    subst hx
    rfl
  | cons s t ih =>
    have hs := h1 s (by simp)
    rw [List.cons_append, parseMany]
    rcases hp : parse s with ⟨q, e2⟩
    rw [hp] at hs
    dsimp only at hs
    subst hs
    rw [ih (fun y hy => h1 y (by simp [hy]))]
    simp [hp]

theorem findSome_condErr_pos (l : List Condition) (i : Nat) (e : ErrorWithPos)
    (h : l.findSome? (conditionErr i) = some e) : e.pos = i := by
  induction l with
  | nil => cases h
  | cons c t ih =>
    rw [List.findSome?_cons] at h
    cases hc : conditionErr i c with
    | some e2 =>
      rw [hc] at h
      cases h
      rw [conditionErr] at hc
      split_ifs at hc <;> (cases hc; rfl)
    | none =>
      rw [hc] at h
      exact ih h

theorem validate_pos {ps : Parser} {e : ErrorWithPos} (h : validate ps = some e) :
    e.pos = ps.i := by
  rw [validate] at h
  cases hfs : ps.query.Conditions.findSome? (conditionErr ps.i) with
  | some e2 =>
    rw [hfs] at h
    split_ifs at h <;> (cases h; first | rfl | exact findSome_condErr_pos _ _ _ hfs)
  | none =>
    rw [hfs] at h
    split_ifs at h <;> (cases h; rfl)

set_option maxHeartbeats 1000000 in
theorem stepOnce_halt_pos (ps : Parser) {ps' : Parser} {e : ErrorWithPos}
    (h : stepOnce ps = .halt ps' (some e)) : e.pos = ps'.i := by
  unfold stepOnce doStepType doSelectField doSelectComma doSelectFrom doTableName doUpdateSet
    doUpdateField doUpdateEquals doUpdateValue doUpdateComma doWhere doInsertFieldsOpeningParens
    doInsertFields doInsertFieldsCommaOrClosingParens doInsertValuesRWord
    doInsertValuesOpeningParens doInsertValues doInsertValuesCommaOrClosingParens
    doInsertValuesCommaBeforeOpeningParens doWhereField doWhereOperator doWhereValue
    doWhereAnd at h
  dsimp only at h
  repeat' split at h
  all_goals first | (cases h; rfl) | cases h

theorem run_halt_pos (fuel : Nat) (ps : Parser) {ps' : Parser} {e : ErrorWithPos}
    (h : run fuel ps = some (ps', some e)) : e.pos = ps'.i := by
  induction fuel generalizing ps with
  | zero => cases h
  | succ n ih =>
    rw [run] at h
    cases hso : stepOnce ps with
    | cont ps2 =>
      rw [hso] at h
      exact ih ps2 h
    | halt ps2 e2 =>
      rw [hso] at h
      cases h
      exact stepOnce_halt_pos ps hso

/-! Longest-match and map-update facts. -/

/-- C7 general part: at a comparison symbol followed by an equals sign,
the peeked token has length at least 2 (never the one-character
prefix). -/
theorem peek_symbol_run_len (ps : Parser) (hwf : ps.sqlUpper = toUp ps.sql)
    (hlen : ps.i + 1 < ps.sql.length)
    (hc : getC ps.sql ps.i = '>' ∨ getC ps.sql ps.i = '<' ∨ getC ps.sql ps.i = '!')
    (he : getC ps.sql (ps.i + 1) = '=') :
    2 ≤ (peekWithLength false ps).2.2 := by
  have hi : ps.i < ps.sql.length := by omega
  have hup : getC ps.sqlUpper ps.i = getC ps.sql ps.i := by
    rw [hwf, getC_toUp hi]
    rcases hc with h | h | h <;> rw [h] <;> decide
  have hup1 : getC ps.sqlUpper (ps.i + 1) = '=' := by
    rw [hwf, getC_toUp hlen, he]
    decide
  rw [peekWithLength]
  rw [if_neg (by omega)]
  rw [if_neg (by rcases hc with h | h | h <;> rw [h] <;> decide)]
  rw [peekIdentifierWithLength]
  try dsimp only
  rw [if_pos (by rw [hup]; rcases hc with h | h | h <;> rw [h] <;> decide)]
  rw [if_neg (by rcases hc with h | h | h <;> rw [h] <;> decide)]
  have hlenU : ps.sqlUpper.length = ps.sql.length := by rw [hwf, length_toUp]
  cases hfind : ((ps.sqlUpper.drop (ps.i + 1)).zip (ps.sql.drop (ps.i + 1))).findIdx?
      (fun pr => (¬ reservedSymbol pr.1 ∨ pr.2 = '(' ∨ pr.2 = ')' : Bool)) with
  | some k =>
    simp only [hfind]
    have hk : k ≠ 0 := by
      intro hk0
      subst hk0
      obtain ⟨hklt, hp0, _⟩ := List.findIdx?_eq_some_iff_getElem.mp hfind
      rw [List.getElem_zip] at hp0
      have e1 : GetElem.getElem (ps.sqlUpper.drop (ps.i + 1)) 0
          (by rw [List.length_drop, hlenU]; omega) = getC ps.sqlUpper (ps.i + 1) := by
        rw [List.getElem_drop, getC_eq_getElem (by rw [hlenU]; omega)]
      have e2 : GetElem.getElem (ps.sql.drop (ps.i + 1)) 0
          (by rw [List.length_drop]; omega) = getC ps.sql (ps.i + 1) := by
        rw [List.getElem_drop, getC_eq_getElem (by omega)]
      rw [e1, e2, hup1, he] at hp0
      simp [reservedSymbol] at hp0
    show 2 ≤ ps.i + 1 + k - ps.i
    omega
  | none =>
    simp only [hfind]
    show 2 ≤ ps.sql.length - ps.i
    omega

/-- C9: the `stepUpdateValue` transition stores the pending field under
Go map-assignment semantics. -/
theorem updateValue_sets_map (ps : Parser) (hm : ps.mode = .outer)
    (hs : ps.step = .stepUpdateValue) (hi : ¬ ps.i ≥ ps.sql.length)
    (hlen : (peekQuotedString false ps).1.len ≠ 0) :
    ∃ ps3, stepOnce ps = .cont ps3 ∧
      ps3.query.Updates =
        mapSet ps.query.Updates ps.nextUpdateField (peekQuotedString false ps).2 := by
  rw [stepOnce, hm]
  dsimp only
  rw [if_neg hi, hs]
  rw [doUpdateValue]
  dsimp only
  rw [if_neg hlen]
  by_cases hw : (peek true (pop {(peekQuotedString false ps).1 with
      query := {(peekQuotedString false ps).1.query with
        Updates := mapSet (peekQuotedString false ps).1.query.Updates
          (peekQuotedString false ps).1.nextUpdateField (peekQuotedString false ps).2},
      nextUpdateField := []})).2 = "WHERE".data
  · rw [if_pos hw]
    exact ⟨_, rfl, by simp⟩
  · rw [if_neg hw]
    exact ⟨_, rfl, by simp⟩


/-! The claims. -/

/-- Helper for C9: a key just stored by Go map assignment reads back as
the stored value (the textually last assignment wins). -/
theorem mapGet_mapSet (u : List (Str × Str)) (k v : Str) : mapGet (mapSet u k v) k = some v := by
  induction u with
  | nil => simp [mapSet, mapGet]
  | cons kv t ih =>
    rcases kv with ⟨k', v'⟩
    rw [mapSet]
    split_ifs with hk
    · simp [mapGet]
    · simp only [mapGet] at ih ⊢
      rw [List.find?_cons_of_neg _ (by simp [hk])]
      exact ih

/-- C1 (amended): for every input on which `Parse` succeeds with type
Insert, `Inserts` is non-empty and every row has exactly `len(Fields)`
entries; an input whose scan completes with type Insert and a non-empty
recorded table name, violating either condition, fails with
"at INSERT INTO: need at least one row to insert" respectively
"at INSERT INTO: value count doesn't match field count", at the final
scan position.  (The original claim, without the table-name proviso, is
refuted by `insert_row_shape_counterexample`: the earlier table-name
validator check fires first.) -/
theorem insert_row_shape_and_errors :
    (∀ s q, parse s = (q, none) → q.Typ = .Insert →
      q.Inserts ≠ [] ∧ ∀ r ∈ q.Inserts, r.length = q.Fields.length)
    ∧ (∀ s ps, scanRun s = some (ps, none) → ps.query.Typ = .Insert →
        ps.query.TableName ≠ [] →
        (ps.query.Inserts = [] →
          (parse s).2 = some ⟨"at INSERT INTO: need at least one row to insert".data, ps.i⟩)
        ∧ ((∃ r ∈ ps.query.Inserts, r.length ≠ ps.query.Fields.length) →
          (parse s).2 =
            some ⟨"at INSERT INTO: value count doesn't match field count".data, ps.i⟩)) :=
  ⟨fun _ _ hp hty => insert_rows_ok hp hty,
   fun _ _ hscan hty htn => insert_rows_errors hscan hty htn⟩

/-- C1 witness: `INSERT INTO 'a'` scans to completion with type Insert,
table name `a` and no rows, and fails with the need-one-row error at
offset 15. -/
theorem insert_row_shape_and_errors_witness :
    (parse "INSERT INTO 'a'".data).2 =
      some ⟨"at INSERT INTO: need at least one row to insert".data, 15⟩ :=
  (insert_row_shape_and_errors.2 "INSERT INTO 'a'".data _ rfl rfl (by decide)).1 rfl

/-- C1 counterexample: on `INSERT INTO` the scan completes with type
Insert and an empty `Inserts`, yet `Parse` fails with "table name cannot
be empty", not the need-one-row error the claim promises. -/
theorem insert_row_shape_counterexample :
    (scanRun "INSERT INTO".data).map (fun r => (r.1.query.Typ, r.1.query.Inserts, r.2)) =
      some (.Insert, ([] : List (List Str)), none)
    ∧ (parse "INSERT INTO".data).2 = some ⟨"table name cannot be empty".data, 11⟩
    ∧ ((parse "INSERT INTO".data).2.map (fun e => e.msg)) ≠
        some ("at INSERT INTO: need at least one row to insert".data) :=
  ⟨by decide, by decide, by decide⟩

/-- C2: for every input on which `Parse` succeeds with type Select,
`Fields` and `Aliases` have the same length, and each alias entry is the
identifier written after `AS` for the corresponding field, or empty when
no `AS` clause was given (shown on inputs exercising both shapes). -/
theorem select_fields_aliases_claim :
    (∀ s q, parse s = (q, none) → q.Typ = .Select → q.Fields.length = q.Aliases.length)
    ∧ parse "SELECT a AS x, b FROM 'c'".data =
        (⟨.Select, "c".data, ["a".data, "b".data], ["x".data, []], [], [], []⟩, none)
    ∧ parse "SELECT a, b AS y FROM 'c'".data =
        (⟨.Select, "c".data, ["a".data, "b".data], [([] : Str), "y".data], [], [], []⟩, none) :=
  ⟨fun _ _ hp hty => select_len_eq hp hty, by decide, by decide⟩

/-- C2 witness: the length equality at a concrete successful SELECT. -/
theorem select_fields_aliases_claim_witness :
    (parse "SELECT a FROM 'b'".data).1.Fields.length =
      (parse "SELECT a FROM 'b'".data).1.Aliases.length :=
  select_fields_aliases_claim.1 "SELECT a FROM 'b'".data _ rfl rfl

/-- C3: `ParseMany` parses statements strictly in order; if every
statement succeeds it returns all queries in order with no error, and at
the first failure it returns exactly the successful prefix together with
that statement's error, attempting no later statement. -/
theorem parseMany_order_claim :
    (∀ l, (∀ s ∈ l, (parse s).2 = none) →
      parseMany l = (l.map (fun s => (parse s).1), none))
    ∧ (∀ l1 x l2 e, (∀ s ∈ l1, (parse s).2 = none) → (parse x).2 = some e →
      parseMany (l1 ++ x :: l2) = (l1.map (fun s => (parse s).1), some e)) :=
  ⟨parseMany_all_ok, parseMany_first_err⟩

/-- C3 witness: a batch with a failing second statement returns the
one-query prefix and that statement's error, ignoring the third. -/
theorem parseMany_order_claim_witness :
    parseMany ["SELECT a FROM 'b'".data, "bogus".data, "SELECT c FROM 'd'".data] =
      ([(parse "SELECT a FROM 'b'".data).1], some ⟨"invalid query type".data, 0⟩) :=
  parseMany_order_claim.2 ["SELECT a FROM 'b'".data] "bogus".data ["SELECT c FROM 'd'".data]
    ⟨"invalid query type".data, 0⟩ (by decide) (by decide)

/-- C4 (amended): every input whose scan completes with type Update or
Delete, zero conditions and a non-empty recorded table name fails with
"at WHERE: WHERE clause is mandatory for UPDATE & DELETE"; consequently
every successful UPDATE or DELETE parse has at least one condition; in
particular `DELETE FROM 'a'` yields this error.  (The original claim,
without the table-name proviso, is refuted by
`where_mandatory_counterexample`.) -/
theorem where_mandatory_claim :
    (∀ s ps, scanRun s = some (ps, none) →
      (ps.query.Typ = .Update ∨ ps.query.Typ = .Delete) → ps.query.Conditions = [] →
      ps.query.TableName ≠ [] →
      (parse s).2 =
        some ⟨"at WHERE: WHERE clause is mandatory for UPDATE & DELETE".data, ps.i⟩)
    ∧ (∀ s q, parse s = (q, none) → q.Typ = .Update ∨ q.Typ = .Delete → q.Conditions ≠ [])
    ∧ (parse "DELETE FROM 'a'".data).2 =
        some ⟨"at WHERE: WHERE clause is mandatory for UPDATE & DELETE".data, 15⟩ :=
  ⟨fun _ _ h1 h2 h3 h4 => where_mandatory h1 h2 h3 h4,
   fun _ _ hp hty => where_nonempty_of_success hp hty, by decide⟩

/-- C4 witness: `UPDATE 'a' SET b = 'c'` scans to completion with type
Update, no conditions and table name `a`, and fails with the mandatory
WHERE error at offset 22. -/
theorem where_mandatory_claim_witness :
    (parse "UPDATE 'a' SET b = 'c'".data).2 =
      some ⟨"at WHERE: WHERE clause is mandatory for UPDATE & DELETE".data, 22⟩ :=
  where_mandatory_claim.1 "UPDATE 'a' SET b = 'c'".data _ rfl (Or.inl rfl) rfl (by decide)

/-- C4 counterexample: on `DELETE FROM` the scan completes with type
Delete and zero conditions, yet `Parse` fails with "table name cannot be
empty", not the mandatory-WHERE error the claim promises. -/
theorem where_mandatory_counterexample :
    (scanRun "DELETE FROM".data).map (fun r => (r.1.query.Typ, r.1.query.Conditions, r.2)) =
      some (.Delete, ([] : List Condition), none)
    ∧ (parse "DELETE FROM".data).2 = some ⟨"table name cannot be empty".data, 11⟩
    ∧ ((parse "DELETE FROM".data).2.map (fun e => e.msg)) ≠
        some ("at WHERE: WHERE clause is mandatory for UPDATE & DELETE".data) :=
  ⟨by decide, by decide, by decide⟩

/-- C5: the empty string, and any string of only whitespace, fails with
"query type cannot be empty" (at offset 0), and this error is produced
whenever the scan ends with the query type still unknown. -/
theorem empty_type_claim :
    (parse "".data).2 = some ⟨"query type cannot be empty".data, 0⟩
    ∧ (∀ s, trimSpace s = [] → (parse s).2 = some ⟨"query type cannot be empty".data, 0⟩)
    ∧ (∀ s ps, scanRun s = some (ps, none) → ps.query.Typ = .UnknownType →
        (parse s).2 = some ⟨"query type cannot be empty".data, ps.i⟩) :=
  ⟨by decide, fun _ h => empty_type_error_ws h, fun _ _ h1 h2 => empty_type_error_general h1 h2⟩

/-- C5 witness: a whitespace-only input fails with the empty-type
error. -/
theorem empty_type_claim_witness :
    (parse "   ".data).2 = some ⟨"query type cannot be empty".data, 0⟩ :=
  empty_type_claim.2.1 "   ".data (by decide)

/-- C6: reserved words are matched case-insensitively: lower-case
spellings of SELECT/FROM, UPDATE/SET/WHERE, INSERT INTO/VALUES and
DELETE FROM parse to identical `Query` values as their upper-case
renderings; in general, the upper-cased peek the FSM compares against
keywords is exactly the ASCII upcasing of the original-case token, of
the same length. -/
theorem case_insensitive_claim :
    parse "select a from 'b'".data = parse "SELECT a FROM 'b'".data
    ∧ parse "update 'a' set b = 'c' where d = 'e'".data =
        parse "UPDATE 'a' SET b = 'c' WHERE d = 'e'".data
    ∧ parse "insert into 'a' (b) values ('1')".data =
        parse "INSERT INTO 'a' (b) VALUES ('1')".data
    ∧ parse "delete from 'a' where b = '1'".data =
        parse "DELETE FROM 'a' WHERE b = '1'".data
    ∧ (∀ ps : Parser, ps.sqlUpper = toUp ps.sql →
        (peekWithLength true ps).2.1 = toUp ((peekWithLength false ps).2.1)
        ∧ (peekWithLength true ps).2.2 = (peekWithLength false ps).2.2) :=
  ⟨by decide,
   Eq.trans
     (by decide : parse "update 'a' set b = 'c' where d = 'e'".data =
       (⟨.Update, "a".data, [], [], [⟨"d".data, .OpField, .Eq, "e".data, .OpQuoted⟩],
         [("b".data, "c".data)], []⟩, none))
     (by decide : parse "UPDATE 'a' SET b = 'c' WHERE d = 'e'".data =
       (⟨.Update, "a".data, [], [], [⟨"d".data, .OpField, .Eq, "e".data, .OpQuoted⟩],
         [("b".data, "c".data)], []⟩, none)).symm,
   Eq.trans
     (by decide : parse "insert into 'a' (b) values ('1')".data =
       (⟨.Insert, "a".data, ["b".data], [], [], [], [["1".data]]⟩, none))
     (by decide : parse "INSERT INTO 'a' (b) VALUES ('1')".data =
       (⟨.Insert, "a".data, ["b".data], [], [], [], [["1".data]]⟩, none)).symm,
   Eq.trans
     (by decide : parse "delete from 'a' where b = '1'".data =
       (⟨.Delete, "a".data, [], [], [⟨"b".data, .OpField, .Eq, "1".data, .OpQuoted⟩],
         [], []⟩, none))
     (by decide : parse "DELETE FROM 'a' WHERE b = '1'".data =
       (⟨.Delete, "a".data, [], [], [⟨"b".data, .OpField, .Eq, "1".data, .OpQuoted⟩],
         [], []⟩, none)).symm,
   peekWithLength_upper⟩

/-- C6 witness: the tokenizer equality at a concrete well-formed
state. -/
theorem case_insensitive_claim_witness :
    (peekWithLength true (initialParser "select a".data)).2.1 =
      toUp ((peekWithLength false (initialParser "select a".data)).2.1)
    ∧ (peekWithLength true (initialParser "select a".data)).2.2 =
      (peekWithLength false (initialParser "select a".data)).2.2 :=
  case_insensitive_claim.2.2.2.2 (initialParser "select a".data) rfl

/-- C7: the tokenizer never matches a token that is a strict prefix of a
longer reserved token at the same position: at a `>`, `<` or `!`
followed by `=` the peeked token has length at least 2 (so `>=`, `<=`,
`!=` are never read as the one-character operator and a stray `=`), the
recorded operators for `>=`, `<=`, `!=` are Gte, Lte, Ne, and
`INSERT INTO` / `DELETE FROM` at the start of a statement select the
Insert / Delete type. -/
theorem longest_match_claim :
    (∀ ps : Parser, ps.sqlUpper = toUp ps.sql → ps.i + 1 < ps.sql.length →
      (getC ps.sql ps.i = '>' ∨ getC ps.sql ps.i = '<' ∨ getC ps.sql ps.i = '!') →
      getC ps.sql (ps.i + 1) = '=' → 2 ≤ (peekWithLength false ps).2.2)
    ∧ (parse "SELECT a FROM 'b' WHERE a >= '1'".data).1.Conditions.map (fun c => c.Operator)
        = [.Gte]
    ∧ (parse "SELECT a FROM 'b' WHERE a <= '1'".data).1.Conditions.map (fun c => c.Operator)
        = [.Lte]
    ∧ (parse "SELECT a FROM 'b' WHERE a != '1'".data).1.Conditions.map (fun c => c.Operator)
        = [.Ne]
    ∧ (parse "SELECT a FROM 'b' WHERE a >= '1'".data).2 = none
    ∧ ((parse "INSERT INTO 'a' (b) VALUES ('1')".data).1.Typ = .Insert
        ∧ (parse "INSERT INTO 'a' (b) VALUES ('1')".data).2 = none)
    ∧ ((parse "DELETE FROM 'a' WHERE b = '1'".data).1.Typ = .Delete
        ∧ (parse "DELETE FROM 'a' WHERE b = '1'".data).2 = none) :=
  ⟨peek_symbol_run_len, by decide, by decide, by decide, by decide,
   ⟨by decide, by decide⟩, ⟨by decide, by decide⟩⟩

/-- C7 witness: at `>=` the peeked token has length at least 2. -/
theorem longest_match_claim_witness :
    2 ≤ (peekWithLength false (initialParser ">= 1".data)).2.2 :=
  longest_match_claim.1 (initialParser ">= 1".data) rfl (by decide) (Or.inl (by decide))
    (by decide)

/-- C8: every failure `Parse` returns is an `ErrorWithPos` value carrying
a message and the byte offset current when the failure was detected:
scan failures carry the final state's offset, and validator failures the
final scan position. -/
theorem error_position_claim :
    (∀ s ps e, scanRun s = some (ps, some e) → (parse s).2 = some e ∧ e.pos = ps.i)
    ∧ (∀ s ps e, scanRun s = some (ps, none) → validate ps = some e →
        (parse s).2 = some e ∧ e.pos = ps.i) :=
  ⟨fun _ _ _ h => ⟨congrArg Prod.snd (parse_eq_of_scan_err h), run_halt_pos _ _ h⟩,
   fun _ _ _ h hv => ⟨by rw [parse_eq_of_scan h]; exact hv, validate_pos hv⟩⟩

/-- C8 witness: the validator failure of `DELETE FROM 'a'` is returned
by `Parse` and carries the final scan position 15. -/
theorem error_position_claim_witness :
    (parse "DELETE FROM 'a'".data).2 =
      some ⟨"at WHERE: WHERE clause is mandatory for UPDATE & DELETE".data, 15⟩
    ∧ (⟨"at WHERE: WHERE clause is mandatory for UPDATE & DELETE".data, 15⟩
        : ErrorWithPos).pos = 15 :=
  error_position_claim.2 "DELETE FROM 'a'".data _ _ rfl rfl

/-- C9: an UPDATE whose SET list assigns the same column twice succeeds,
and `Updates` maps that column to the value of the textually last
assignment: Go map assignment replaces the binding in place
(`mapGet_mapSet`), and the `stepUpdateValue` transition performs exactly
that assignment. -/
theorem update_last_wins_claim :
    parse "UPDATE 'a' SET b = '1', b = '2' WHERE c = '3'".data =
      (⟨.Update, "a".data, [], [], [⟨"c".data, .OpField, .Eq, "3".data, .OpQuoted⟩],
        [("b".data, "2".data)], []⟩, none)
    ∧ mapGet (parse "UPDATE 'a' SET b = '1', b = '2' WHERE c = '3'".data).1.Updates "b".data
        = some "2".data
    ∧ (∀ u k v, mapGet (mapSet u k v) k = some v)
    ∧ (∀ ps : Parser, ps.mode = .outer → ps.step = .stepUpdateValue →
        ¬ ps.i ≥ ps.sql.length → (peekQuotedString false ps).1.len ≠ 0 →
        ∃ ps3, stepOnce ps = .cont ps3 ∧
          ps3.query.Updates =
            mapSet ps.query.Updates ps.nextUpdateField (peekQuotedString false ps).2) :=
  ⟨by decide, by decide, mapGet_mapSet, updateValue_sets_map⟩

/-- C9 witness: the `stepUpdateValue` transition at a concrete state
stores the pending binding. -/
theorem update_last_wins_claim_witness :
    ∃ ps3, stepOnce {initialParser "'v'".data with
        step := Step.stepUpdateValue, nextUpdateField := "b".data} = StepRes.cont ps3 ∧
      ps3.query.Updates = mapSet [] "b".data "v".data :=
  update_last_wins_claim.2.2.2 _ rfl rfl (by decide) (by decide)

/-- C10: in every reachable parser state whose step is WhereOperator or
WhereValue the condition list is non-empty, so the unguarded access to
its last element performed by those steps is in bounds. -/
theorem where_access_in_bounds_claim :
    ∀ s ps, Reachable s ps →
      (ps.step = .stepWhereOperator ∨ ps.step = .stepWhereValue) →
      ps.query.Conditions ≠ [] := by
  intro s ps h hstep
  exact (reachable_inv h).condNonempty
    (by rcases hstep with h2 | h2 <;> rw [h2] <;> rfl)

/-- C10 witness: after four iterations on `DELETE FROM 'a' WHERE b = '1'`
the scan is at WhereOperator with one condition recorded. -/
theorem where_access_in_bounds_claim_witness :
    (iterCont 4 (initialParser (trimSpace "DELETE FROM 'a' WHERE b = '1'".data))).query.Conditions
      ≠ [] :=
  where_access_in_bounds_claim "DELETE FROM 'a' WHERE b = '1'".data _
    (reachable_iterCont 4 Reachable.init) (by decide)

end SqlParser
